import Mathlib

/-!
Verification of the SMMUv3 DXE driver (ArmPkg/Drivers/SmmuDxe).

This file gives a shallow embedding, in Lean, of the driver's Stage-2
identity page-table engine (IoMmu.c), its command/event queue engine
(SmmuV3Util.c) and its IORT publishing path (SmmuDxe.c), together with
theorems settling the specification claims about those components.

Machine integers are modelled as `Nat` with explicit masking where the
C code masks; 64-bit two's-complement `~mask` constants appear as their
64-bit literal values.  Memory holding page tables is modelled as a
total function from page base address and entry index to the 64-bit
entry value; the page allocator is a list of page addresses that
`AllocatePages` hands out in order (an empty list, or a 0 entry, models
allocation failure, since the C code checks the returned pointer
against NULL).  MMIO register reads are modelled as streams of the
values that successive reads return; MMIO writes are logged.
-/

/-- EFI_STATUS values used by the driver. -/
inductive EfiStatus where
  | success
  | invalidParameter
  | outOfResources
  | timeout
  | notFound
  | deviceError
deriving DecidableEq, Repr

/-! ## Page-table constants (IoMmu.h) -/

/-- Number of levels in the page table (PAGE_TABLE_DEPTH). -/
def PAGE_TABLE_DEPTH : Nat := 4

/-- PAGE_TABLE_READ_BIT = 0x1 << 6. -/
def PAGE_TABLE_READ_BIT : Nat := 0x40

/-- PAGE_TABLE_WRITE_BIT = 0x1 << 7. -/
def PAGE_TABLE_WRITE_BIT : Nat := 0x80

/-- PAGE_TABLE_ENTRY_VALID_BIT. -/
def PAGE_TABLE_ENTRY_VALID_BIT : Nat := 0x1

/-- PAGE_TABLE_BLOCK_OFFSET. -/
def PAGE_TABLE_BLOCK_OFFSET : Nat := 0xFFF

/-- PAGE_TABLE_ACCESS_FLAG = 0x1 << 10. -/
def PAGE_TABLE_ACCESS_FLAG : Nat := 0x400

/-- PAGE_TABLE_DESCRIPTOR = 0x1 << 1. -/
def PAGE_TABLE_DESCRIPTOR : Nat := 0x2

/-- PAGE_TABLE_SIZE = EFI_PAGE_SIZE / sizeof(PAGE_TABLE_ENTRY) = 512 entries. -/
def PAGE_TABLE_SIZE : Nat := 512

/-- `~PAGE_TABLE_BLOCK_OFFSET` as a UINT64 value. -/
def NOT_BLOCK_OFFSET_64 : Nat := 0xFFFFFFFFFFFFF000

/-- `~PAGE_TABLE_ENTRY_VALID_BIT` as a UINT64 value. -/
def NOT_VALID_BIT_64 : Nat := 0xFFFFFFFFFFFFFFFE

/-- `~(PAGE_TABLE_READ_BIT | PAGE_TABLE_WRITE_BIT)` as a UINT64 value. -/
def NOT_READ_WRITE_64 : Nat := 0xFFFFFFFFFFFFFF3F

/-- PAGE_TABLE_INDEX(VirtualAddress, Level):
`((va >> (12 + 9 * (PAGE_TABLE_DEPTH - 1 - level))) & 0x1FF)`. -/
def PAGE_TABLE_INDEX (va level : Nat) : Nat :=
  (va >>> (12 + 9 * (PAGE_TABLE_DEPTH - 1 - level))) &&& 0x1FF

/-! ## Page-table memory and allocator state -/

/-- State of the memory holding page tables, plus the page allocator.
`mem p i` is the 64-bit value of entry `i` of the 4 KiB page whose base
address is `p`.  `fresh` lists the page addresses the boot-services page
allocator will return next, in order; an exhausted list (or a `0` head)
models `AllocatePages` returning NULL. -/
structure PTState where
  mem : Nat → Nat → Nat
  fresh : List Nat

/-- Store value `v` into entry `idx` of the page at base address `page`. -/
def writeEntry (s : PTState) (page idx v : Nat) : PTState :=
  { s with mem := fun p i => if p = page ∧ i = idx then v else s.mem p i }

/-- ZeroMem over one whole 4 KiB page. -/
def zeroPage (s : PTState) (page : Nat) : PTState :=
  { s with mem := fun p i => if p = page then 0 else s.mem p i }

/-- AllocatePages(1): pop the next page address; 0 models a NULL return. -/
def allocatePages1 (s : PTState) : Nat × PTState :=
  match s.fresh with
  | [] => (0, s)
  | a :: rest => (a, { s with fresh := rest })

/-! ## UpdateFlags (IoMmu.c) -/

/-- UpdateFlags(Table, SetReadWriteFlagsOnly, Flags, Index).
`table` is the page-table base address (0 = NULL).  `Flags` has C type
UINT16, hence the `% 0x10000`; the C test `Flags & ~PAGE_TABLE_BLOCK_OFFSET`
on the int-promoted 16-bit value is `flags &&& 0xF000`. -/
def UpdateFlags (s : PTState) (table : Nat) (setReadWriteFlagsOnly : Bool)
    (flags0 idx : Nat) : EfiStatus × PTState :=
  let flags := flags0 % 0x10000
  if table = 0 ∨ flags &&& 0xF000 ≠ 0 ∨ PAGE_TABLE_SIZE ≤ idx then
    (EfiStatus.invalidParameter, s)
  else if setReadWriteFlagsOnly then
    if flags ≠ 0 then
      (EfiStatus.success, writeEntry s table idx (s.mem table idx ||| flags))
    else
      (EfiStatus.success,
        writeEntry s table idx (s.mem table idx &&& NOT_READ_WRITE_64))
  else
    (EfiStatus.success, writeEntry s table idx (s.mem table idx ||| flags))

/-! ## UpdateMapping (IoMmu.c) -/

/-- The `for (Level = 0; Level < PAGE_TABLE_DEPTH - 1; Level++)` traversal
of UpdateMapping.  `fuel` counts the remaining non-leaf levels (the call
site passes `PAGE_TABLE_DEPTH - 1` with `level = 0`).  On success the
result carries the pointer `Current` to the leaf-level page table. -/
def UpdateMappingLoop (va flags : Nat) (valid setRWOnly : Bool) :
    Nat → Nat → Nat → PTState → Except (EfiStatus × PTState) (Nat × PTState)
  | 0, _level, current, s => Except.ok (current, s)
  | fuel + 1, level, current, s =>
    let idx := PAGE_TABLE_INDEX va level
    -- the loop body after the allocation check, on the possibly-updated
    -- state s1
    let tail : PTState → Except (EfiStatus × PTState) (Nat × PTState) := fun s1 =>
      -- if (!SetReadWriteFlagsOnly) { if (Valid) Entries[Index] |= VALID; }
      let s2 :=
        if ¬ setRWOnly ∧ valid then
          writeEntry s1 current idx
            (s1.mem current idx ||| PAGE_TABLE_ENTRY_VALID_BIT)
        else s1
      let uf := UpdateFlags s2 current setRWOnly flags idx
      if uf.1 = EfiStatus.success then
        -- Current = (PAGE_TABLE *)((UINTN)Current->Entries[Index] & ~0xFFF)
        UpdateMappingLoop va flags valid setRWOnly fuel (level + 1)
          (uf.2.mem current idx &&& NOT_BLOCK_OFFSET_64) uf.2
      else
        Except.error (uf.1, uf.2)
    -- if (Current->Entries[Index] == 0) allocate and zero a child page,
    -- returning EFI_OUT_OF_RESOURCES if AllocatePages gives NULL
    if s.mem current idx = 0 then
      let pr := allocatePages1 s
      if pr.1 = 0 then
        Except.error (EfiStatus.outOfResources, s)
      else
        tail (writeEntry (zeroPage pr.2 pr.1) current idx pr.1)
    else
      tail s

/-- UpdateMapping(Root, VirtualAddress, PhysicalAddress, Flags, Valid,
SetReadWriteFlagsOnly).  `root = 0` models a NULL root pointer. -/
def UpdateMapping (s : PTState) (root va pa flags0 : Nat)
    (valid setRWOnly : Bool) : EfiStatus × PTState :=
  let flags := flags0 % 0x10000
  if root = 0 ∨ flags &&& 0xF000 ≠ 0 ∨ pa = 0 then
    (EfiStatus.invalidParameter, s)
  else
    match UpdateMappingLoop va flags valid setRWOnly (PAGE_TABLE_DEPTH - 1) 0 root s with
    | Except.error e => e
    | Except.ok (current, s1) =>
      if current ≠ 0 then
        let idx := PAGE_TABLE_INDEX va (PAGE_TABLE_DEPTH - 1)
        let s2 :=
          if ¬ setRWOnly then
            if valid then
              -- Entries[Index] = PA & ~0xFFF;  Entries[Index] |= VALID;
              let sA := writeEntry s1 current idx (pa &&& NOT_BLOCK_OFFSET_64)
              writeEntry sA current idx
                (sA.mem current idx ||| PAGE_TABLE_ENTRY_VALID_BIT)
            else
              -- Entries[Index] &= ~VALID (only invalidate leaf entry)
              writeEntry s1 current idx (s1.mem current idx &&& NOT_VALID_BIT_64)
          else s1
        UpdateFlags s2 current setRWOnly flags idx
      else
        (EfiStatus.success, s1)

/-! ## UpdatePageTable (IoMmu.c) -/

/-- EDK2 ALIGN_VALUE(x, EFI_PAGE_SIZE): round `x` up to a 4 KiB multiple. -/
def alignValue4K (x : Nat) : Nat := x + ((0x1000 - x % 0x1000) % 0x1000)

/-- The while loop of UpdatePageTable, walking `cur` up to `endAddr` in
4 KiB steps.  The extra `fuel` argument only bounds the recursion; the
caller passes the loop trip count, so the `fuel = 0` base case (which
returns the same value as the exhausted while condition) is never the
reason the walk stops.  Besides the final status and state the loop
returns a ghost log of the `(VirtualAddress, PhysicalAddress)` argument
pairs passed to UpdateMapping; the log does not influence the
computation. -/
def UpdatePageTableLoop (root flags : Nat) (valid setRWOnly : Bool)
    (endAddr : Nat) : Nat → Nat → PTState → EfiStatus × PTState × List (Nat × Nat)
  | 0, _cur, s => (EfiStatus.success, s, [])
  | fuel + 1, cur, s =>
    if cur < endAddr then
      let m := UpdateMapping s root cur cur flags valid setRWOnly
      -- if (EFI_ERROR (Status)) goto Error
      if m.1 = EfiStatus.success then
        let r := UpdatePageTableLoop root flags valid setRWOnly endAddr fuel
          (cur + 0x1000) m.2
        (r.1, r.2.1, (cur, cur) :: r.2.2)
      else
        (m.1, m.2, [(cur, cur)])
    else
      (EfiStatus.success, s, [])

/-- The number of 4 KiB steps the UpdatePageTable while loop takes from
`cur` up to `endAddr`. -/
def stepCount (endAddr cur : Nat) : Nat := (endAddr - cur + 0xFFF) / 0x1000

/-- UpdatePageTable(Root, PhysicalAddress, Bytes, Flags, Valid,
SetReadWriteFlagsOnly), with the ghost UpdateMapping call log. -/
def UpdatePageTable (s : PTState) (root pa bytes flags0 : Nat)
    (valid setRWOnly : Bool) : EfiStatus × PTState × List (Nat × Nat) :=
  let flags := flags0 % 0x10000
  if root = 0 ∨ flags &&& 0xF000 ≠ 0 ∨ pa = 0 ∨ bytes = 0 then
    (EfiStatus.invalidParameter, s, [])
  else
    let endAddr := alignValue4K (pa + bytes)
    UpdatePageTableLoop root flags valid setRWOnly endAddr
      (stepCount endAddr pa) pa s

/-! ## Command queue engine (SmmuV3Util.c) -/

/-- SMMUV3_COUNT_FROM_LOG2(Log2Size) = 1 << Log2Size. -/
def SMMUV3_COUNT_FROM_LOG2 (log2size : Nat) : Nat := 1 <<< log2size

/-- SMMUV3_IS_QUEUE_EMPTY: equal slot indices and equal wrap bits. -/
def SMMUV3_IS_QUEUE_EMPTY (pi pw ci cw : Nat) : Bool :=
  pi == ci && pw == cw

/-- SMMUV3_IS_QUEUE_FULL: equal slot indices and different wrap bits. -/
def SMMUV3_IS_QUEUE_FULL (pi pw ci cw : Nat) : Bool :=
  pi == ci && pw != cw

/-- The 20-bit WriteIndex / ReadIndex bitfield of the PROD / CONS
registers (SMMUV3_CMDQ_PROD.WriteIndex and friends). -/
def queueIndexField (reg : Nat) : Nat := reg &&& 0xFFFFF

/-- The hardware environment seen by SmmuV3SendCommand: the values that
successive MMIO reads of SMMU_CMDQ_PROD and SMMU_CMDQ_CONS return. -/
structure CmdQEnv where
  prodReads : Nat → Nat
  consReads : Nat → Nat

/-- Result of SmmuV3SendCommand: the returned status, the values written
to SMMU_CMDQ_PROD, and the (slot, command) pairs stored into the command
queue, in order.  A command is its (CmdLow, CmdHigh) pair. -/
structure SendResult where
  status : EfiStatus
  prodWrites : List Nat
  cmdWrites : List (Nat × (Nat × Nat))
deriving DecidableEq, Repr

/-- The full-queue poll loop of SmmuV3SendCommand
(`while (Count > 0 && SMMUV3_IS_QUEUE_FULL(...))`).  `t` indexes the
next MMIO read; `p`, `c` are the last values read from PROD and CONS.
Returns the remaining count, the next read index, and the last values. -/
def sendPollFull (env : CmdQEnv) (wrapMask queueMask : Nat) :
    Nat → Nat → Nat → Nat → Nat × Nat × Nat × Nat
  | 0, t, p, c => (0, t, p, c)
  | count + 1, t, p, c =>
    if SMMUV3_IS_QUEUE_FULL (queueIndexField p &&& queueMask)
        (queueIndexField p &&& wrapMask) (queueIndexField c &&& queueMask)
        (queueIndexField c &&& wrapMask) then
      sendPollFull env wrapMask queueMask count (t + 1)
        (env.prodReads t) (env.consReads t)
    else
      (count + 1, t, p, c)

/-- The consumed-wait loop of SmmuV3SendCommand
(`while (Count > 0 && Consumer.ReadIndex < Producer.WriteIndex)`).
`prodWriteIndex` is the 20-bit WriteIndex just written.  Returns the
remaining count, the next read index and the last CONS value read. -/
def sendWaitConsumed (env : CmdQEnv) (prodWriteIndex : Nat) :
    Nat → Nat → Nat → Nat × Nat × Nat
  | 0, t, c => (0, t, c)
  | count + 1, t, c =>
    if queueIndexField c < prodWriteIndex then
      sendWaitConsumed env prodWriteIndex count (t + 1) (env.consReads t)
    else
      (count + 1, t, c)

/-- SmmuV3SendCommand(SmmuInfo, Command).  `log2size` is
SmmuInfo->CommandQueueLog2Size; the SmmuInfo/Command NULL checks are
outside the model (both are non-NULL at every call site).  The command
write at slot `ProducerIndex` goes through SmmuV3WriteCommands, which
stores Commands[0] at `(StartingIndex + 0) & QueueMask`. -/
def SmmuV3SendCommand (env : CmdQEnv) (log2size : Nat) (command : Nat × Nat) :
    SendResult :=
  let totalQueueEntries := SMMUV3_COUNT_FROM_LOG2 log2size
  let wrapMask := totalQueueEntries
  let queueMask := wrapMask - 1
  let p0 := env.prodReads 0
  let c0 := env.consReads 0
  let r := sendPollFull env wrapMask queueMask 10 1 p0 c0
  let count := r.1
  let t := r.2.1
  let p := r.2.2.1
  let c := r.2.2.2
  let producerIndex := queueIndexField p &&& queueMask
  let producerWrap := queueIndexField p &&& wrapMask
  let consumerIndex := queueIndexField c &&& queueMask
  let consumerWrap := queueIndexField c &&& wrapMask
  if count = 0 ∧
      SMMUV3_IS_QUEUE_FULL producerIndex producerWrap consumerIndex consumerWrap then
    { status := EfiStatus.timeout, prodWrites := [], cmdWrites := [] }
  else
    let cmdWrites := [((producerIndex + 0) &&& queueMask, command)]
    let newProducerIndex := producerIndex + 1
    -- Producer.AsUINT32 = 0; Producer.WriteIndex = New & (QueueMask | WrapMask)
    let prodWriteVal := (newProducerIndex &&& (queueMask ||| wrapMask)) &&& 0xFFFFF
    let c1 := env.consReads t
    let w := sendWaitConsumed env (queueIndexField prodWriteVal) 10 (t + 1) c1
    if w.1 = 0 ∧ queueIndexField w.2.2 < queueIndexField prodWriteVal then
      { status := EfiStatus.timeout, prodWrites := [prodWriteVal],
        cmdWrites := cmdWrites }
    else
      { status := EfiStatus.success, prodWrites := [prodWriteVal],
        cmdWrites := cmdWrites }

/-- The specification's advance rule for the widened producer index
(slot + wrap bit): increment the slot; exactly when the slot wraps to
0, flip the wrap bit, otherwise preserve it.  Stated from the spec's
words, for comparison against the code's behaviour. -/
def specAdvanceProd (writeIndex log2size : Nat) : Nat :=
  let n := 2 ^ log2size
  let slot := writeIndex &&& (n - 1)
  let wrap := writeIndex &&& n
  if slot + 1 = n then wrap ^^^ n
  else wrap ||| (slot + 1)

/-! ## Event queue engine (SmmuV3Util.c) -/

/-- SMMUV3_FAULT_RECORD: UINT64 Fault[4] (32 bytes). -/
structure SMMUV3_FAULT_RECORD where
  fault0 : Nat
  fault1 : Nat
  fault2 : Nat
  fault3 : Nat
deriving DecidableEq, Repr

/-- The all-zero fault record. -/
def zeroFaultRecord : SMMUV3_FAULT_RECORD := ⟨0, 0, 0, 0⟩

/-- The hardware environment seen by SmmuV3ConsumeEventQueueForErrors:
the values one read of EVENTQ_PROD and EVENTQ_CONS returns, and the
contents of the event queue ring by slot index. -/
structure EvtQEnv where
  prodRead : Nat
  consRead : Nat
  queue : Nat → SMMUV3_FAULT_RECORD

/-- Result of SmmuV3ConsumeEventQueueForErrors: the returned status, the
contents of *FaultRecord at exit, *IsEmpty at exit, and the values
written to SMMU_EVENTQ_CONS. -/
structure ConsumeResult where
  status : EfiStatus
  fault : SMMUV3_FAULT_RECORD
  isEmpty : Bool
  consWrites : List Nat

/-- SmmuV3ConsumeEventQueueForErrors(SmmuInfo, FaultRecord, IsEmpty).
`log2size` is SmmuInfo->EventQueueLog2Size and `faultIn` is the contents
of the caller's FaultRecord buffer at entry (the function's output
parameter).  The NULL-argument checks are outside the model (the only
caller passes stack addresses). -/
def SmmuV3ConsumeEventQueueForErrors (env : EvtQEnv) (log2size : Nat)
    (faultIn : SMMUV3_FAULT_RECORD) : ConsumeResult :=
  let totalQueueEntries := SMMUV3_COUNT_FROM_LOG2 log2size
  let wrapMask := totalQueueEntries
  let queueMask := totalQueueEntries - 1
  let producerIndex := queueIndexField env.prodRead &&& queueMask
  let producerWrap := queueIndexField env.prodRead &&& wrapMask
  let consumerIndex := queueIndexField env.consRead &&& queueMask
  let consumerWrap := queueIndexField env.consRead &&& wrapMask
  if SMMUV3_IS_QUEUE_EMPTY producerIndex producerWrap consumerIndex consumerWrap then
    { status := EfiStatus.success, fault := faultIn, isEmpty := true,
      consWrites := [] }
  else
    let fault := env.queue consumerIndex
    let consumerIndex1 := consumerIndex + 1
    let consumerIndex2 := if consumerIndex1 = totalQueueEntries then 0 else consumerIndex1
    let consumerWrap2 :=
      if consumerIndex1 = totalQueueEntries then consumerWrap ^^^ wrapMask
      else consumerWrap
    -- Consumer.ReadIndex = ConsumerIndex | ConsumerWrap (20-bit field of
    -- the register value read earlier); then write Consumer.AsUINT32
    let consWrite :=
      (env.consRead &&& 0xFFF00000) ||| ((consumerIndex2 ||| consumerWrap2) &&& 0xFFFFF)
    { status := EfiStatus.success, fault := fault, isEmpty := false,
      consWrites := [consWrite] }

/-! ## IoMmu protocol functions (IoMmu.c) -/

/-- IOMMU_MAP_INFO. -/
structure IOMMU_MAP_INFO where
  NumberOfBytes : Nat
  VirtualAddress : Nat
  PhysicalAddress : Nat
deriving DecidableEq, Repr

/-- Outcome of IoMmuMap.  `nullDeref` marks the execution in which
AllocateZeroPool returned NULL and the code stored through the NULL
MapInfo pointer. -/
inductive MapOutcome where
  | ok (deviceAddress : Nat) (mapping : IOMMU_MAP_INFO) (s : PTState)
  | nullDeref (s : PTState)
  | err (status : EfiStatus) (s : PTState)

/-- Whether a MapOutcome is the NULL-pointer store. -/
def MapOutcome.isNullDeref : MapOutcome → Bool
  | MapOutcome.nullDeref _ => true
  | _ => false

/-- Status reported by a MapOutcome (the NULL store never returns). -/
def MapOutcome.status : MapOutcome → Option EfiStatus
  | MapOutcome.ok _ _ _ => some EfiStatus.success
  | MapOutcome.nullDeref _ => none
  | MapOutcome.err st _ => some st

/-- IoMmuMap(This, Operation, HostAddress, NumberOfBytes, DeviceAddress,
Mapping).  `root` is mSmmu->PageTableRoot, `poolAllocOk` tells whether
AllocateZeroPool succeeds.  The This/NumberOfBytes/DeviceAddress/Mapping
pointer checks are outside the model (the protocol caller passes valid
pointers); `hostAddress = 0` is the HostAddress == NULL check and
`numberOfBytes = 0` the *NumberOfBytes == 0 check. -/
def IoMmuMap (s : PTState) (root : Nat) (poolAllocOk : Bool)
    (hostAddress numberOfBytes : Nat) : MapOutcome :=
  if hostAddress = 0 ∨ numberOfBytes = 0 then
    MapOutcome.err EfiStatus.invalidParameter s
  else
    let flags := PAGE_TABLE_ACCESS_FLAG ||| PAGE_TABLE_DESCRIPTOR
    let r := UpdatePageTable s root hostAddress numberOfBytes flags true false
    if r.1 ≠ EfiStatus.success then MapOutcome.err r.1 r.2.1
    else if poolAllocOk then
      -- MapInfo = AllocateZeroPool(...); MapInfo->... = ...; *Mapping = MapInfo
      MapOutcome.ok hostAddress
        { NumberOfBytes := numberOfBytes, VirtualAddress := hostAddress,
          PhysicalAddress := hostAddress } r.2.1
    else
      -- AllocateZeroPool returned NULL; the stores MapInfo->NumberOfBytes
      -- etc. go through the NULL pointer unchecked
      MapOutcome.nullDeref r.2.1

/-- SMMUv3 command opcodes used by IoMmuUnmap (SmmuV3Registers.h). -/
def CmdTlbiEl2All : Nat := 0x20

/-- CMD_TLBI_NSNH_ALL opcode. -/
def CmdTlbiNsnhAll : Nat := 0x30

/-- CMD_SYNC opcode. -/
def CmdSync : Nat := 0x46

/-- SMMUV3_BUILD_CMD_TLBI_NSNH_ALL: CmdLow = opcode, CmdHigh = 0. -/
def CMD_TLBI_NSNH_ALL : Nat × Nat := (CmdTlbiNsnhAll, 0)

/-- SMMUV3_BUILD_CMD_TLBI_EL2_ALL. -/
def CMD_TLBI_EL2_ALL : Nat × Nat := (CmdTlbiEl2All, 0)

/-- SMMUV3_BUILD_CMD_SYNC_NO_INTERRUPT (all non-opcode fields zero). -/
def CMD_SYNC_NO_INTERRUPT : Nat × Nat := (CmdSync, 0)

/-- IoMmuUnmap(This, Mapping).  `root` is mSmmu->PageTableRoot and
`log2size` mSmmu->CommandQueueLog2Size; `e1 e2 e3` are the hardware
environments seen by the three SmmuV3SendCommand calls, in order.  The
This/Mapping NULL checks are outside the model (mapping is the record
the non-NULL Mapping handle points to). -/
def IoMmuUnmap (s : PTState) (root log2size : Nat) (e1 e2 e3 : CmdQEnv)
    (mapping : IOMMU_MAP_INFO) : EfiStatus × PTState :=
  let r := UpdatePageTable s root mapping.PhysicalAddress mapping.NumberOfBytes
    0 false false
  if r.1 ≠ EfiStatus.success then (r.1, r.2.1)
  else
    let c1 := SmmuV3SendCommand e1 log2size CMD_TLBI_NSNH_ALL
    if c1.status ≠ EfiStatus.success then (c1.status, r.2.1)
    else
      let c2 := SmmuV3SendCommand e2 log2size CMD_TLBI_EL2_ALL
      if c2.status ≠ EfiStatus.success then (c2.status, r.2.1)
      else
        let c3 := SmmuV3SendCommand e3 log2size CMD_SYNC_NO_INTERRUPT
        (c3.status, r.2.1)

/-- EDKII_IOMMU_ACCESS_READ. -/
def EDKII_IOMMU_ACCESS_READ : Nat := 0x1

/-- EDKII_IOMMU_ACCESS_WRITE. -/
def EDKII_IOMMU_ACCESS_WRITE : Nat := 0x2

/-- IoMmuSetAttribute(This, DeviceHandle, Mapping, IoMmuAccess).  `root`
is mSmmu->PageTableRoot; the This/Mapping NULL checks are outside the
model.  PAGE_TABLE_READ_WRITE_FROM_IOMMU_ACCESS(a) = a << 6; the C test
`IoMmuAccess & ~(READ | WRITE)` on a UINT64 access value is modelled on
`Nat` by demanding that only bits 0 and 1 may be set. -/
def IoMmuSetAttribute (s : PTState) (root : Nat) (mapping : IOMMU_MAP_INFO)
    (ioMmuAccess : Nat) : EfiStatus × PTState :=
  if ioMmuAccess &&& (EDKII_IOMMU_ACCESS_READ ||| EDKII_IOMMU_ACCESS_WRITE)
      ≠ ioMmuAccess then
    (EfiStatus.invalidParameter, s)
  else
    let r := UpdatePageTable s root mapping.PhysicalAddress
      mapping.NumberOfBytes (ioMmuAccess <<< 6) false true
    (r.1, r.2.1)

/-! ## Address width encode/decode (SmmuV3Util.c) -/

/-- SMMU_ADDRESS_SIZE_TYPE enumerators. -/
def SmmuAddressSize32Bit : Nat := 0

/-- SmmuAddressSize36Bit. -/
def SmmuAddressSize36Bit : Nat := 1

/-- SmmuAddressSize40Bit. -/
def SmmuAddressSize40Bit : Nat := 2

/-- SmmuAddressSize42Bit. -/
def SmmuAddressSize42Bit : Nat := 3

/-- SmmuAddressSize44Bit. -/
def SmmuAddressSize44Bit : Nat := 4

/-- SmmuAddressSize48Bit. -/
def SmmuAddressSize48Bit : Nat := 5

/-- SmmuAddressSize52Bit. -/
def SmmuAddressSize52Bit : Nat := 6

/-- SmmuV3DecodeAddressWidth(AddressSizeType): switch over the address
size types, 0 on the default branch. -/
def SmmuV3DecodeAddressWidth (addressSizeType : Nat) : Nat :=
  if addressSizeType = SmmuAddressSize32Bit then 32
  else if addressSizeType = SmmuAddressSize36Bit then 36
  else if addressSizeType = SmmuAddressSize40Bit then 40
  else if addressSizeType = SmmuAddressSize42Bit then 42
  else if addressSizeType = SmmuAddressSize44Bit then 44
  else if addressSizeType = SmmuAddressSize48Bit then 48
  else if addressSizeType = SmmuAddressSize52Bit then 52
  else 0

/-- SmmuV3EncodeAddressWidth(AddressWidth): switch over the widths,
0 on the default branch. -/
def SmmuV3EncodeAddressWidth (addressWidth : Nat) : Nat :=
  if addressWidth = 32 then SmmuAddressSize32Bit
  else if addressWidth = 36 then SmmuAddressSize36Bit
  else if addressWidth = 40 then SmmuAddressSize40Bit
  else if addressWidth = 42 then SmmuAddressSize42Bit
  else if addressWidth = 44 then SmmuAddressSize44Bit
  else if addressWidth = 48 then SmmuAddressSize48Bit
  else if addressWidth = 52 then SmmuAddressSize52Bit
  else 0

/-! ## IORT publishing (SmmuDxe.c) -/

/-- CopyMem(buf + off, src, src.length) over a byte buffer. -/
def copyMemBytes (buf : List Nat) (off : Nat) (src : List Nat) : List Nat :=
  buf.take off ++ src ++ buf.drop (off + src.length)

/-- Little-endian bytes of a UINT32 store. -/
def uint32LEBytes (v : Nat) : List Nat :=
  [v &&& 0xFF, (v >>> 8) &&& 0xFF, (v >>> 16) &&& 0xFF, (v >>> 24) &&& 0xFF]

/-- OFFSET_OF(EFI_ACPI_DESCRIPTION_HEADER, Checksum): Signature (4) +
Length (4) + Revision (1) place Checksum at byte 9. -/
def ACPI_CHECKSUM_OFFSET : Nat := 9

/-- Modelled from the spec: BaseLib's CalculateCheckSum8 (the library is
outside this repository) — the two's-complement of the 8-bit sum of the
buffer's bytes, so that adding it back makes the total sum 0 mod 256. -/
def calculateCheckSum8 (buf : List Nat) : Nat :=
  (256 - buf.sum % 256) % 256

/-- AcpiPlatformChecksum(Buffer, Size): zero the Checksum byte, then
store CalculateCheckSum8 of the whole buffer there. -/
def AcpiPlatformChecksum (buf : List Nat) : List Nat :=
  let b1 := copyMemBytes buf ACPI_CHECKSUM_OFFSET [0]
  copyMemBytes b1 ACPI_CHECKSUM_OFFSET [calculateCheckSum8 b1]

/-- AddIortTable(AcpiTable, SmmuConfig): the construction of the IORT
blob that is handed to InstallAcpiTable.  `iort`, `its`, `smmuNode`,
`rc` are the bytes of SmmuConfig->Config.Iort / ItsNode / SmmuNode /
RcNode; the page allocation and the install call are external services
modelled as succeeding.  The Length store is a UINT32 write at byte
offset 4 of the EFI_ACPI_DESCRIPTION_HEADER (little-endian). -/
def AddIortTable (iort its smmuNode rc : List Nat) : List Nat :=
  let tableSize := iort.length + its.length + smmuNode.length + rc.length
  let buf0 := List.replicate tableSize 0
  let b1 := copyMemBytes buf0 0 iort
  let b2 := copyMemBytes b1 4 (uint32LEBytes tableSize)
  let b3 := copyMemBytes b2 iort.length its
  let b4 := copyMemBytes b3 (iort.length + its.length) smmuNode
  let b5 := copyMemBytes b4 (iort.length + its.length + smmuNode.length) rc
  AcpiPlatformChecksum b5

/-! ## Observer functions over the page-table walk

These ghost functions mirror the traversal that UpdateMapping performs:
`childOf` is the child pointer extracted from an entry, `pathPage` the
page reached at each level for a given address, `readLeaf` the leaf
entry for an address.  `pathOk` says the walk for an address finds a
non-NULL page at every level, as it does on a range previously
installed by IoMmuMap. -/

/-- The child page-table address stored in an entry
(`Entries[Index] & ~PAGE_TABLE_BLOCK_OFFSET`). -/
def childOf (s : PTState) (page idx : Nat) : Nat :=
  s.mem page idx &&& NOT_BLOCK_OFFSET_64

/-- The page reached after following `k` levels of the walk for address
`va`, starting from page `current` at level `level`. -/
def chainPage (s : PTState) (va current level : Nat) : Nat → Nat
  | 0 => current
  | k + 1 =>
    childOf s (chainPage s va current level k) (PAGE_TABLE_INDEX va (level + k))

/-- The page the walk for `va` reaches at level `l`, starting from the
root. -/
def pathPage (s : PTState) (root va : Nat) : Nat → Nat
  | 0 => root
  | l + 1 => childOf s (pathPage s root va l) (PAGE_TABLE_INDEX va l)

/-- The leaf (level-3) entry for address `va`. -/
def readLeaf (s : PTState) (root va : Nat) : Nat :=
  s.mem (pathPage s root va 3) (PAGE_TABLE_INDEX va 3)

/-- The walk for `va` finds a non-NULL page at every level below the
leaf, so UpdateMapping traverses without allocating. -/
def pathOk (s : PTState) (root va : Nat) : Prop :=
  ∀ l, l < 3 → pathPage s root va (l + 1) ≠ 0

instance (s : PTState) (root va : Nat) : Decidable (pathOk s root va) := by
  unfold pathOk; infer_instance

/-- The page allocator only hands out 4 KiB-aligned, non-NULL pages
below 2^64. -/
def FreshWF (s : PTState) : Prop :=
  ∀ f ∈ s.fresh, f % 0x1000 = 0 ∧ f ≠ 0 ∧ f < 2 ^ 64

/-- Every non-zero entry carries a non-zero child address above its low
12 flag bits (true of all entries the driver itself writes). -/
def EntriesWF (s : PTState) : Prop :=
  ∀ p i, s.mem p i ≠ 0 → s.mem p i &&& NOT_BLOCK_OFFSET_64 ≠ 0

/-- The transformation UpdateFlags applies to an entry in
SetReadWriteFlagsOnly mode: OR the flags in when non-zero, clear the
R/W bits when zero. -/
def rwOp (flags e : Nat) : Nat :=
  if flags ≠ 0 then e ||| flags else e &&& NOT_READ_WRITE_64

/-! ## Basic bit-level lemmas -/

theorem nat_and_or_right (a b m : Nat) : (a ||| b) &&& m = (a &&& m) ||| (b &&& m) := by
  apply Nat.eq_of_testBit_eq
  intro i
  simp only [Nat.testBit_and, Nat.testBit_or]
  cases a.testBit i <;> cases b.testBit i <;> cases m.testBit i <;> rfl

theorem nat_and_and_right (a m m' : Nat) : (a &&& m) &&& m' = (a &&& (m &&& m')) := by
  apply Nat.eq_of_testBit_eq
  intro i
  simp only [Nat.testBit_and]
  cases a.testBit i <;> cases m.testBit i <;> cases m'.testBit i <;> rfl

theorem low_and_high (a : Nat) (ha : a < 0x1000) : a &&& NOT_BLOCK_OFFSET_64 = 0 := by
  apply Nat.eq_of_testBit_eq
  intro i
  simp only [Nat.testBit_and, Nat.zero_testBit]
  by_cases hi : i < 12
  · have hm : NOT_BLOCK_OFFSET_64.testBit i = false := by
      interval_cases i <;> rfl
    simp [hm]
  · have hf : a.testBit i = false := by
      apply Nat.testBit_eq_false_of_lt
      calc a < 0x1000 := ha
        _ = 2 ^ 12 := by norm_num
        _ ≤ 2 ^ i := Nat.pow_le_pow_right (by norm_num) (by omega)
    simp [hf]

theorem aligned_and_high (f : Nat) (hal : f % 0x1000 = 0) (hlt : f < 2 ^ 64) :
    f &&& NOT_BLOCK_OFFSET_64 = f := by
  have hrep : f = (f / 0x1000) <<< 12 := by
    rw [Nat.shiftLeft_eq]
    omega
  apply Nat.eq_of_testBit_eq
  intro i
  simp only [Nat.testBit_and]
  by_cases hi : i < 12
  · have hf : f.testBit i = false := by
      rw [hrep, Nat.testBit_shiftLeft]
      have h12 : ¬ (12 ≤ i) := by omega
      simp [h12]
    simp [hf]
  · by_cases hi64 : i < 64
    · have hm : NOT_BLOCK_OFFSET_64.testBit i = true := by
        interval_cases i <;> rfl
      simp [hm]
    · have hf : f.testBit i = false := by
        apply Nat.testBit_eq_false_of_lt
        calc f < 2 ^ 64 := hlt
          _ ≤ 2 ^ i := Nat.pow_le_pow_right (by norm_num) (by omega)
      simp [hf]

/-! ## State and walk congruence lemmas -/

theorem writeEntry_mem (s : PTState) (page idx v p i : Nat) :
    (writeEntry s page idx v).mem p i =
      if p = page ∧ i = idx then v else s.mem p i := rfl

theorem writeEntry_fresh (s : PTState) (page idx v : Nat) :
    (writeEntry s page idx v).fresh = s.fresh := rfl

theorem writeEntry_self_mem (s : PTState) (page idx p i : Nat) :
    (writeEntry s page idx (s.mem page idx)).mem p i = s.mem p i := by
  rw [writeEntry_mem]
  split
  · next h => rw [h.1, h.2]
  · rfl

/-- Two states whose entries agree above the low 12 bits. -/
def sameMasked (s s' : PTState) : Prop :=
  ∀ p i, s'.mem p i &&& NOT_BLOCK_OFFSET_64 = s.mem p i &&& NOT_BLOCK_OFFSET_64

theorem sameMasked_of_ptwise {s s' : PTState}
    (h : ∀ p i, s'.mem p i = s.mem p i) : sameMasked s s' := by
  intro p i; rw [h]

theorem childOf_congr {s s' : PTState} (h : sameMasked s s') (p i : Nat) :
    childOf s' p i = childOf s p i := h p i

theorem chainPage_congr {s s' : PTState} (h : sameMasked s s')
    (va current level : Nat) :
    ∀ k, chainPage s' va current level k = chainPage s va current level k := by
  intro k
  induction k with
  | zero => rfl
  | succ k ih => rw [chainPage, chainPage, ih, childOf_congr h]

theorem pathPage_congr {s s' : PTState} (h : sameMasked s s') (root va : Nat) :
    ∀ l, pathPage s' root va l = pathPage s root va l := by
  intro l
  induction l with
  | zero => rfl
  | succ l ih => rw [pathPage, pathPage, ih, childOf_congr h]

theorem pathOk_congr {s s' : PTState} (h : sameMasked s s') (root va : Nat) :
    pathOk s root va → pathOk s' root va := by
  intro hok l hl
  rw [pathPage_congr h]
  exact hok l hl

theorem chainPage_shift (s : PTState) (va current level : Nat) :
    ∀ k, chainPage s va current level (k + 1) =
      chainPage s va (childOf s current (PAGE_TABLE_INDEX va level)) (level + 1) k := by
  intro k
  induction k with
  | zero => rfl
  | succ k ih =>
    show childOf s (chainPage s va current level (k + 1))
        (PAGE_TABLE_INDEX va (level + (k + 1))) =
      childOf s (chainPage s va (childOf s current (PAGE_TABLE_INDEX va level)) (level + 1) k)
        (PAGE_TABLE_INDEX va (level + 1 + k))
    have hix : level + (k + 1) = level + 1 + k := by omega
    rw [hix, ih]

theorem pathPage_eq_chain (s : PTState) (root va : Nat) :
    ∀ l, pathPage s root va l = chainPage s va root 0 l := by
  intro l
  induction l with
  | zero => rfl
  | succ l ih =>
    show childOf s (pathPage s root va l) (PAGE_TABLE_INDEX va l) =
      childOf s (chainPage s va root 0 l) (PAGE_TABLE_INDEX va (0 + l))
    rw [Nat.zero_add, ih]

/-- PAGE_TABLE_INDEX is always a legal entry index. -/
theorem ptIndex_lt (va level : Nat) : PAGE_TABLE_INDEX va level < PAGE_TABLE_SIZE := by
  have h := Nat.and_le_right (n := va >>> (12 + 9 * (PAGE_TABLE_DEPTH - 1 - level))) (m := 0x1FF)
  unfold PAGE_TABLE_INDEX PAGE_TABLE_SIZE
  omega

/-! ## UpdateFlags in its two modes -/

theorem UpdateFlags_notRW (s : PTState) (table flags idx : Nat)
    (ht : table ≠ 0) (hflags : flags &&& 0xF000 = 0) (hlt : flags < 0x10000)
    (hidx : idx < PAGE_TABLE_SIZE) :
    UpdateFlags s table false flags idx =
      (EfiStatus.success, writeEntry s table idx (s.mem table idx ||| flags)) := by
  simp only [UpdateFlags, Nat.mod_eq_of_lt hlt]
  rw [if_neg]
  · simp
  · push_neg
    exact ⟨ht, by simpa using hflags, by omega⟩

theorem UpdateFlags_rw (s : PTState) (table flags idx : Nat)
    (ht : table ≠ 0) (hflags : flags &&& 0xF000 = 0) (hlt : flags < 0x10000)
    (hidx : idx < PAGE_TABLE_SIZE) :
    UpdateFlags s table true flags idx =
      (EfiStatus.success, writeEntry s table idx (rwOp flags (s.mem table idx))) := by
  simp only [UpdateFlags, Nat.mod_eq_of_lt hlt, rwOp]
  rw [if_neg]
  · by_cases h0 : flags = 0
    · simp [h0]
    · simp [h0]
  · push_neg
    exact ⟨ht, by simpa using hflags, by omega⟩

/-! ## The walk without allocation: Unmap configuration
(flags = 0, Valid = FALSE, SetReadWriteFlagsOnly = FALSE) -/

theorem updateMappingLoop_unmap (va : Nat) :
    ∀ fuel level current s,
      current ≠ 0 →
      (∀ k, k ≤ fuel → chainPage s va current level k ≠ 0) →
      ∃ s', UpdateMappingLoop va 0 false false fuel level current s =
          Except.ok (chainPage s va current level fuel, s') ∧
        (∀ p i, s'.mem p i = s.mem p i) ∧ s'.fresh = s.fresh := by
  intro fuel
  induction fuel with
  | zero =>
    intro level current s _hc _hchain
    exact ⟨s, rfl, fun p i => rfl, rfl⟩
  | succ fuel ih =>
    intro level current s hc hchain
    have hchild : childOf s current (PAGE_TABLE_INDEX va level) ≠ 0 :=
      hchain 1 (by omega)
    have hentry : s.mem current (PAGE_TABLE_INDEX va level) ≠ 0 := by
      intro h
      apply hchild
      unfold childOf
      rw [h]
      exact Nat.zero_and _
    have hW : ∀ p i,
        (writeEntry s current (PAGE_TABLE_INDEX va level)
          (s.mem current (PAGE_TABLE_INDEX va level) ||| 0)).mem p i = s.mem p i := by
      intro p i
      simp only [Nat.or_zero]
      exact writeEntry_self_mem s current (PAGE_TABLE_INDEX va level) p i
    set sW := writeEntry s current (PAGE_TABLE_INDEX va level)
      (s.mem current (PAGE_TABLE_INDEX va level) ||| 0) with hsW
    have hWmask : sameMasked s sW := sameMasked_of_ptwise hW
    have hWentry : sW.mem current (PAGE_TABLE_INDEX va level) =
        s.mem current (PAGE_TABLE_INDEX va level) := hW _ _
    obtain ⟨s', heq, hpt, hfr⟩ :=
      ih (level + 1) (childOf s current (PAGE_TABLE_INDEX va level)) sW hchild
        (by
          intro k hk
          rw [chainPage_congr hWmask, ← chainPage_shift]
          exact hchain (k + 1) (by omega))
    refine ⟨s', ?_, fun p i => (hpt p i).trans (hW p i), hfr.trans rfl⟩
    show UpdateMappingLoop va 0 false false (fuel + 1) level current s = _
    simp only [UpdateMappingLoop]
    rw [if_neg hentry]
    simp only [Bool.false_eq_true, and_false, if_false]
    rw [UpdateFlags_notRW s current 0 (PAGE_TABLE_INDEX va level) hc (by decide)
      (by decide) (ptIndex_lt va level)]
    show UpdateMappingLoop va 0 false false fuel (level + 1)
        (sW.mem current (PAGE_TABLE_INDEX va level) &&& NOT_BLOCK_OFFSET_64) sW = _
    rw [hWentry]
    show UpdateMappingLoop va 0 false false fuel (level + 1)
        (childOf s current (PAGE_TABLE_INDEX va level)) sW = _
    rw [heq]
    rw [chainPage_congr hWmask, ← chainPage_shift]

theorem and_mask_assoc_const (e m m' : Nat) : (e &&& m) &&& m' = e &&& (m &&& m') :=
  nat_and_and_right e m m'

theorem notValid_then_block (e : Nat) :
    (e &&& NOT_VALID_BIT_64) &&& NOT_BLOCK_OFFSET_64 = e &&& NOT_BLOCK_OFFSET_64 := by
  rw [nat_and_and_right]
  congr 1

theorem notValid_idem (e : Nat) :
    (e &&& NOT_VALID_BIT_64) &&& NOT_VALID_BIT_64 = e &&& NOT_VALID_BIT_64 := by
  rw [nat_and_and_right, Nat.and_self]

theorem notValid_clears_valid (e : Nat) :
    (e &&& NOT_VALID_BIT_64) &&& PAGE_TABLE_ENTRY_VALID_BIT = 0 := by
  rw [nat_and_and_right]
  have h : NOT_VALID_BIT_64 &&& PAGE_TABLE_ENTRY_VALID_BIT = 0 := by decide
  rw [h, Nat.and_zero]

/-- A single Unmap-configuration UpdateMapping call on an address whose
walk never needs an allocation: it succeeds and its sole effect is to
clear the VALID bit of the leaf entry. -/
theorem updateMapping_unmap (s : PTState) (root a : Nat)
    (hroot : root ≠ 0) (ha : a ≠ 0) (hpath : pathOk s root a) :
    ∃ s', UpdateMapping s root a a 0 false false = (EfiStatus.success, s') ∧
      s'.fresh = s.fresh ∧
      ∀ p i, s'.mem p i =
        if p = pathPage s root a 3 ∧ i = PAGE_TABLE_INDEX a 3 then
          s.mem p i &&& NOT_VALID_BIT_64
        else s.mem p i := by
  have hchain : ∀ k, k ≤ 3 → chainPage s a root 0 k ≠ 0 := by
    intro k hk
    match k with
    | 0 => exact hroot
    | l + 1 =>
      rw [← pathPage_eq_chain]
      exact hpath l (by omega)
  obtain ⟨s1, heq, hpt, hfr⟩ := updateMappingLoop_unmap a 3 0 root s hroot hchain
  have hcur : chainPage s a root 0 3 ≠ 0 := hchain 3 (by omega)
  have hcur' : pathPage s root a 3 = chainPage s a root 0 3 := pathPage_eq_chain s root a 3
  set cur := chainPage s a root 0 3 with hcurdef
  set idx := PAGE_TABLE_INDEX a 3 with hidxdef
  -- the two leaf-level writes
  set s2 := writeEntry s1 cur idx (s1.mem cur idx &&& NOT_VALID_BIT_64) with hs2
  have hUF := UpdateFlags_notRW s2 cur 0 idx hcur (by decide) (by decide)
    (ptIndex_lt a 3)
  refine ⟨(UpdateFlags s2 cur false 0 idx).2, ?_, ?_, ?_⟩
  · show UpdateMapping s root a a 0 false false = _
    unfold UpdateMapping
    rw [if_neg (by push_neg; exact ⟨hroot, by decide, ha⟩)]
    show (match UpdateMappingLoop a (0 % 65536) false false (PAGE_TABLE_DEPTH - 1) 0 root s with
      | Except.error e => e
      | Except.ok (current, s1) => _) = _
    have hdep : PAGE_TABLE_DEPTH - 1 = 3 := by decide
    rw [show (0 % 65536 : Nat) = 0 from rfl, hdep, heq]
    show (if cur ≠ 0 then _ else (EfiStatus.success, s1)) = _
    rw [if_pos hcur]
    show UpdateFlags s2 cur false (0 % 65536) idx = _
    rw [show (0 % 65536 : Nat) = 0 from rfl, hUF]
  · rw [hUF, writeEntry_fresh, hs2, writeEntry_fresh, hfr]
  · intro p i
    rw [hUF, writeEntry_mem]
    by_cases hcell : p = cur ∧ i = idx
    · rw [if_pos hcell, if_pos (by rw [hcur']; exact hcell), Nat.or_zero]
      rw [hs2, writeEntry_mem, if_pos ⟨rfl, rfl⟩, hpt, hcell.1, hcell.2]
    · rw [if_neg hcell, if_neg (by rw [hcur']; exact hcell)]
      rw [hs2, writeEntry_mem, if_neg hcell, hpt]

theorem sameMasked_of_unmap_frame {s s' : PTState}
    (h : ∀ p i, s'.mem p i = s.mem p i ∨
      s'.mem p i = s.mem p i &&& NOT_VALID_BIT_64) : sameMasked s s' := by
  intro p i
  rcases h p i with h1 | h1 <;> rw [h1]
  exact notValid_then_block _

/-- The UpdatePageTable walk in the Unmap configuration, over a range
whose every 4 KiB step has a fully-present walk: it succeeds, allocates
nothing, at most clears VALID bits, and clears the VALID bit of the
leaf entry of every step address. -/
theorem updatePageTableLoop_unmap (root : Nat) (hroot : root ≠ 0) (endAddr : Nat) :
    ∀ fuel cur s, endAddr - cur ≤ 0x1000 * fuel → cur ≠ 0 →
      (∀ k, cur + 0x1000 * k < endAddr → pathOk s root (cur + 0x1000 * k)) →
      (UpdatePageTableLoop root 0 false false endAddr fuel cur s).1 = EfiStatus.success ∧
      (UpdatePageTableLoop root 0 false false endAddr fuel cur s).2.1.fresh = s.fresh ∧
      (∀ p i, (UpdatePageTableLoop root 0 false false endAddr fuel cur s).2.1.mem p i =
          s.mem p i ∨
        (UpdatePageTableLoop root 0 false false endAddr fuel cur s).2.1.mem p i =
          s.mem p i &&& NOT_VALID_BIT_64) ∧
      (∀ k, cur + 0x1000 * k < endAddr →
        (UpdatePageTableLoop root 0 false false endAddr fuel cur s).2.1.mem
            (pathPage s root (cur + 0x1000 * k) 3)
            (PAGE_TABLE_INDEX (cur + 0x1000 * k) 3) =
          s.mem (pathPage s root (cur + 0x1000 * k) 3)
            (PAGE_TABLE_INDEX (cur + 0x1000 * k) 3) &&& NOT_VALID_BIT_64) := by
  intro fuel
  induction fuel with
  | zero =>
    intro cur s hn _hcur _hpaths
    refine ⟨rfl, rfl, fun p i => Or.inl rfl, fun k hk => absurd hk (by omega)⟩
  | succ fuel ih =>
    intro cur s hn hcur hpaths
    by_cases hlt : cur < endAddr
    · have hp0 : pathOk s root cur := by
        have h := hpaths 0 (by omega)
        simpa using h
      obtain ⟨s1, hmapeq, hfr1, hmem1⟩ := updateMapping_unmap s root cur hroot hcur hp0
      have hframe1 : ∀ p i, s1.mem p i = s.mem p i ∨
          s1.mem p i = s.mem p i &&& NOT_VALID_BIT_64 := by
        intro p i
        rw [hmem1 p i]
        split
        · exact Or.inr rfl
        · exact Or.inl rfl
      have hmask1 : sameMasked s s1 := sameMasked_of_unmap_frame hframe1
      have ihres := ih (cur + 0x1000) s1 (by omega) (by omega) (by
        intro k hk
        have harith : cur + 0x1000 + 0x1000 * k = cur + 0x1000 * (k + 1) := by ring
        rw [harith] at hk ⊢
        exact pathOk_congr hmask1 root _ (hpaths (k + 1) hk))
      have hloopeq : UpdatePageTableLoop root 0 false false endAddr (fuel + 1) cur s =
          ((UpdatePageTableLoop root 0 false false endAddr fuel (cur + 0x1000) s1).1,
           (UpdatePageTableLoop root 0 false false endAddr fuel (cur + 0x1000) s1).2.1,
           (cur, cur) ::
             (UpdatePageTableLoop root 0 false false endAddr fuel (cur + 0x1000) s1).2.2) := by
        rw [UpdatePageTableLoop, if_pos hlt]
        rw [hmapeq]
        simp
      obtain ⟨ih1, ih2, ih3, ih4⟩ := ihres
      rw [hloopeq]
      refine ⟨ih1, ih2.trans hfr1, ?_, ?_⟩
      · intro p i
        rcases ih3 p i with h | h <;> rcases hframe1 p i with h' | h' <;>
          rw [h, h']
        · exact Or.inl rfl
        · exact Or.inr rfl
        · exact Or.inr rfl
        · exact Or.inr (notValid_idem _)
      · intro k hk
        match k with
        | 0 =>
          have hcell : s1.mem (pathPage s root cur 3) (PAGE_TABLE_INDEX cur 3) =
              s.mem (pathPage s root cur 3) (PAGE_TABLE_INDEX cur 3) &&&
                NOT_VALID_BIT_64 := by
            rw [hmem1, if_pos ⟨rfl, rfl⟩]
          have h4 : cur + 0x1000 * 0 = cur := by ring
          rw [h4]
          rcases ih3 (pathPage s root cur 3) (PAGE_TABLE_INDEX cur 3) with h | h <;>
            rw [h, hcell]
          exact notValid_idem _
        | k + 1 =>
          have harith : cur + 0x1000 * (k + 1) = cur + 0x1000 + 0x1000 * k := by ring
          rw [harith] at hk ⊢
          have h := ih4 k hk
          rw [pathPage_congr hmask1] at h
          rw [h]
          rcases hframe1 (pathPage s root (cur + 0x1000 + 0x1000 * k) 3)
            (PAGE_TABLE_INDEX (cur + 0x1000 + 0x1000 * k) 3) with h' | h' <;> rw [h']
          exact notValid_idem _
    · rw [UpdatePageTableLoop, if_neg hlt]
      exact ⟨rfl, rfl, fun p i => Or.inl rfl, fun k hk => absurd hk (by omega)⟩

theorem alignValue4K_ge (x : Nat) : x ≤ alignValue4K x := by
  unfold alignValue4K
  omega

theorem alignValue4K_mod (x : Nat) : alignValue4K x % 0x1000 = 0 := by
  unfold alignValue4K
  omega

theorem ptIndex_congr_of_page {x a : Nat} (h : x >>> 12 = a >>> 12) (l : Nat) :
    PAGE_TABLE_INDEX x l = PAGE_TABLE_INDEX a l := by
  unfold PAGE_TABLE_INDEX
  rw [Nat.shiftRight_add, Nat.shiftRight_add, h]

theorem pathPage_addr_congr (s : PTState) (root : Nat) {x a : Nat}
    (h : ∀ l, PAGE_TABLE_INDEX x l = PAGE_TABLE_INDEX a l) :
    ∀ l, pathPage s root x l = pathPage s root a l := by
  intro l
  induction l with
  | zero => rfl
  | succ l ih => rw [pathPage, pathPage, ih, h l]

/-- Every address in a mapped range shares its page (hence its walk)
with one of the 4 KiB step addresses the UpdatePageTable loop visits. -/
theorem step_addr_page (pa x : Nat) (hle : pa ≤ x) :
    ∃ k, (pa + 0x1000 * k) >>> 12 = x >>> 12 ∧
      ∀ E, E % 0x1000 = 0 → x < E → pa + 0x1000 * k < E := by
  refine ⟨x / 0x1000 - pa / 0x1000, ?_, ?_⟩
  · rw [Nat.shiftRight_eq_div_pow, Nat.shiftRight_eq_div_pow]
    have h2 : (2 : Nat) ^ 12 = 0x1000 := by norm_num
    rw [h2]
    omega
  · intro E hE hxE
    omega

/-- Whatever the command-queue hardware does, IoMmuUnmap leaves the
page-table state produced by its UpdatePageTable call. -/
theorem IoMmuUnmap_state (s : PTState) (root log2size : Nat) (e1 e2 e3 : CmdQEnv)
    (mapping : IOMMU_MAP_INFO) :
    (IoMmuUnmap s root log2size e1 e2 e3 mapping).2 =
      (UpdatePageTable s root mapping.PhysicalAddress mapping.NumberOfBytes
        0 false false).2.1 := by
  simp only [IoMmuUnmap]
  split
  · rfl
  · split
    · rfl
    · split
      · rfl
      · rfl

/-- Claim C5: after a successful IoMmuUnmap(m), which runs
UpdatePageTable with Flags = 0, Valid = FALSE, SetReadWriteFlagsOnly =
FALSE over the recorded range, every level-3 leaf entry covering
[m.PhysicalAddress, m.PhysicalAddress + m.NumberOfBytes) has its VALID
bit clear, and the invalidation clears only the VALID bit, leaving the
address field (and every other bit) of the leaf intact.  The
`hpath` hypothesis states that the recorded range was previously
installed, so the walk finds every level present. -/
theorem claim_C5 (s : PTState) (root log2size : Nat) (e1 e2 e3 : CmdQEnv)
    (m : IOMMU_MAP_INFO) (hroot : root ≠ 0) (hpa : m.PhysicalAddress ≠ 0)
    (hbytes : m.NumberOfBytes ≠ 0)
    (hpath : ∀ k, m.PhysicalAddress + 0x1000 * k <
        alignValue4K (m.PhysicalAddress + m.NumberOfBytes) →
      pathOk s root (m.PhysicalAddress + 0x1000 * k)) :
    (UpdatePageTable s root m.PhysicalAddress m.NumberOfBytes 0 false false).1 =
      EfiStatus.success ∧
    ∀ x, m.PhysicalAddress ≤ x → x < m.PhysicalAddress + m.NumberOfBytes →
      readLeaf (IoMmuUnmap s root log2size e1 e2 e3 m).2 root x =
        readLeaf s root x &&& NOT_VALID_BIT_64 ∧
      readLeaf (IoMmuUnmap s root log2size e1 e2 e3 m).2 root x &&&
        PAGE_TABLE_ENTRY_VALID_BIT = 0 := by
  have hUPTeq : UpdatePageTable s root m.PhysicalAddress m.NumberOfBytes 0 false false =
      UpdatePageTableLoop root 0 false false
        (alignValue4K (m.PhysicalAddress + m.NumberOfBytes))
        (stepCount (alignValue4K (m.PhysicalAddress + m.NumberOfBytes)) m.PhysicalAddress)
        m.PhysicalAddress s := by
    simp only [UpdatePageTable, Nat.zero_mod]
    rw [if_neg]
    push_neg
    exact ⟨hroot, by decide, hpa, hbytes⟩
  obtain ⟨hst, hfr, hframe, hleaf⟩ :=
    updatePageTableLoop_unmap root hroot
      (alignValue4K (m.PhysicalAddress + m.NumberOfBytes))
      (stepCount (alignValue4K (m.PhysicalAddress + m.NumberOfBytes)) m.PhysicalAddress)
      m.PhysicalAddress s
      (by unfold stepCount; omega) hpa hpath
  constructor
  · rw [hUPTeq]
    exact hst
  · intro x hx1 hx2
    have hstate : (IoMmuUnmap s root log2size e1 e2 e3 m).2 =
        (UpdatePageTableLoop root 0 false false
          (alignValue4K (m.PhysicalAddress + m.NumberOfBytes))
          (stepCount (alignValue4K (m.PhysicalAddress + m.NumberOfBytes)) m.PhysicalAddress)
          m.PhysicalAddress s).2.1 := by
      rw [IoMmuUnmap_state, hUPTeq]
    obtain ⟨k, hpage, hbound⟩ := step_addr_page m.PhysicalAddress x hx1
    have halt : m.PhysicalAddress + 0x1000 * k <
        alignValue4K (m.PhysicalAddress + m.NumberOfBytes) :=
      hbound _ (alignValue4K_mod _)
        (lt_of_lt_of_le hx2 (alignValue4K_ge _))
    have hIDX : ∀ l, PAGE_TABLE_INDEX x l =
        PAGE_TABLE_INDEX (m.PhysicalAddress + 0x1000 * k) l :=
      ptIndex_congr_of_page hpage.symm
    have hpp := pathPage_addr_congr s root hIDX
    have hmaskfin := sameMasked_of_unmap_frame hframe
    have hmain : readLeaf (IoMmuUnmap s root log2size e1 e2 e3 m).2 root x =
        readLeaf s root x &&& NOT_VALID_BIT_64 := by
      rw [hstate]
      unfold readLeaf
      rw [pathPage_congr hmaskfin, hpp 3, hIDX 3]
      rw [hleaf k halt]
    refine ⟨hmain, ?_⟩
    rw [hmain]
    exact notValid_clears_valid _

/-! ## Concrete states used by the witnesses -/

/-- A page-table memory with an identity mapping installed for
[0x10000, 0x12000): root at 0x1000, children 0x2000, 0x3000, 0x4000,
two valid leaves with ACCESS, DESCRIPTOR and VALID set. -/
def wMem : Nat → Nat → Nat := fun p i =>
  if p = 0x1000 ∧ i = 0 then 0x2403
  else if p = 0x2000 ∧ i = 0 then 0x3403
  else if p = 0x3000 ∧ i = 0 then 0x4403
  else if p = 0x4000 ∧ i = 16 then 0x10403
  else if p = 0x4000 ∧ i = 17 then 0x11403
  else 0

/-- The mapped witness state (no further allocatable pages needed). -/
def wState : PTState := ⟨wMem, []⟩

/-- The mapping record IoMmuMap would have produced for that range. -/
def wMapInfo : IOMMU_MAP_INFO :=
  { NumberOfBytes := 0x2000, VirtualAddress := 0x10000, PhysicalAddress := 0x10000 }

/-- A command-queue environment whose registers always read 0. -/
def wCmdEnv : CmdQEnv := ⟨fun _ => 0, fun _ => 0⟩

theorem claim_C5_witness :
    (UpdatePageTable wState 0x1000 wMapInfo.PhysicalAddress wMapInfo.NumberOfBytes
      0 false false).1 = EfiStatus.success ∧
    ∀ x, wMapInfo.PhysicalAddress ≤ x →
      x < wMapInfo.PhysicalAddress + wMapInfo.NumberOfBytes →
      readLeaf (IoMmuUnmap wState 0x1000 8 wCmdEnv wCmdEnv wCmdEnv wMapInfo).2 0x1000 x =
        readLeaf wState 0x1000 x &&& NOT_VALID_BIT_64 ∧
      readLeaf (IoMmuUnmap wState 0x1000 8 wCmdEnv wCmdEnv wCmdEnv wMapInfo).2 0x1000 x &&&
        PAGE_TABLE_ENTRY_VALID_BIT = 0 :=
  claim_C5 wState 0x1000 8 wCmdEnv wCmdEnv wCmdEnv wMapInfo (by decide) (by decide)
    (by decide)
    (by
      intro k hk
      have hend : alignValue4K (wMapInfo.PhysicalAddress + wMapInfo.NumberOfBytes) =
          0x12000 := by decide
      rw [hend] at hk
      have hpa : wMapInfo.PhysicalAddress = 0x10000 := rfl
      rw [hpa] at hk ⊢
      have hk2 : k < 2 := by omega
      interval_cases k
      · decide
      · decide)

/-! ## The walk in SetReadWriteFlagsOnly mode (IoMmuSetAttribute) -/

theorem rw_flags_lt {flags : Nat} (hf : flags &&& 0xC0 = flags) : flags < 0x10000 := by
  have h := Nat.and_le_right (n := flags) (m := 0xC0)
  omega

theorem rw_flags_low {flags : Nat} (hf : flags &&& 0xC0 = flags) : flags &&& 0xF000 = 0 := by
  rw [← hf, nat_and_and_right]
  have h : (0xC0 &&& 0xF000 : Nat) = 0 := by decide
  rw [h, Nat.and_zero]

theorem rwOp_idem (flags e : Nat) : rwOp flags (rwOp flags e) = rwOp flags e := by
  unfold rwOp
  split
  · rw [Nat.or_assoc, Nat.or_self]
  · rw [nat_and_and_right, Nat.and_self]

theorem rwOp_masked {flags : Nat} (hf : flags &&& 0xC0 = flags) (e : Nat) :
    rwOp flags e &&& NOT_BLOCK_OFFSET_64 = e &&& NOT_BLOCK_OFFSET_64 := by
  unfold rwOp
  split
  · rw [nat_and_or_right]
    have hlow : flags &&& NOT_BLOCK_OFFSET_64 = 0 := by
      apply low_and_high
      have h := Nat.and_le_right (n := flags) (m := 0xC0)
      omega
    rw [hlow, Nat.or_zero]
  · rw [nat_and_and_right]
    have h : NOT_READ_WRITE_64 &&& NOT_BLOCK_OFFSET_64 = NOT_BLOCK_OFFSET_64 := by decide
    rw [h]

theorem rwOp_outside {flags : Nat} (hf : flags &&& 0xC0 = flags) (e : Nat) :
    rwOp flags e &&& NOT_READ_WRITE_64 = e &&& NOT_READ_WRITE_64 := by
  unfold rwOp
  split
  · rw [nat_and_or_right]
    have hlow : flags &&& NOT_READ_WRITE_64 = 0 := by
      rw [← hf, nat_and_and_right]
      have h : (0xC0 &&& NOT_READ_WRITE_64 : Nat) = 0 := by decide
      rw [h, Nat.and_zero]
    rw [hlow, Nat.or_zero]
  · rw [nat_and_and_right, Nat.and_self]

theorem rwOp_valid {flags : Nat} (hf : flags &&& 0xC0 = flags) (e : Nat) :
    rwOp flags e &&& PAGE_TABLE_ENTRY_VALID_BIT = e &&& PAGE_TABLE_ENTRY_VALID_BIT := by
  unfold rwOp
  split
  · rw [nat_and_or_right]
    have hlow : flags &&& PAGE_TABLE_ENTRY_VALID_BIT = 0 := by
      rw [← hf, nat_and_and_right]
      have h : (0xC0 &&& PAGE_TABLE_ENTRY_VALID_BIT : Nat) = 0 := by decide
      rw [h, Nat.and_zero]
    rw [hlow, Nat.or_zero]
  · rw [nat_and_and_right]
    have h : NOT_READ_WRITE_64 &&& PAGE_TABLE_ENTRY_VALID_BIT =
        PAGE_TABLE_ENTRY_VALID_BIT := by decide
    rw [h]

theorem sameMasked_of_rw_frame {flags : Nat} (hf : flags &&& 0xC0 = flags)
    {s s' : PTState}
    (h : ∀ p i, s'.mem p i = s.mem p i ∨ s'.mem p i = rwOp flags (s.mem p i)) :
    sameMasked s s' := by
  intro p i
  rcases h p i with h1 | h1 <;> rw [h1]
  exact rwOp_masked hf _

/-- The cells the SetReadWriteFlagsOnly walk touches: the entry at each
level along the chain. -/
def touchedCell (s : PTState) (va current level fuel p i : Nat) : Prop :=
  ∃ k, k < fuel ∧ p = chainPage s va current level k ∧
    i = PAGE_TABLE_INDEX va (level + k)

/-- The non-leaf traversal in SetReadWriteFlagsOnly mode over a present
path: no allocation, and each visited entry gets exactly the R/W
update. -/
theorem updateMappingLoop_rw (va flags : Nat) (hf : flags &&& 0xC0 = flags) :
    ∀ fuel level current s,
      current ≠ 0 →
      (∀ k, k ≤ fuel → chainPage s va current level k ≠ 0) →
      ∃ s', UpdateMappingLoop va flags false true fuel level current s =
          Except.ok (chainPage s va current level fuel, s') ∧
        s'.fresh = s.fresh ∧
        ∀ p i,
          (touchedCell s va current level fuel p i →
            s'.mem p i = rwOp flags (s.mem p i)) ∧
          (¬ touchedCell s va current level fuel p i → s'.mem p i = s.mem p i) := by
  intro fuel
  induction fuel with
  | zero =>
    intro level current s _hc _hchain
    refine ⟨s, rfl, rfl, fun p i => ⟨?_, fun _ => rfl⟩⟩
    rintro ⟨k, hk, -⟩
    omega
  | succ fuel ih =>
    intro level current s hc hchain
    have hchild : childOf s current (PAGE_TABLE_INDEX va level) ≠ 0 :=
      hchain 1 (by omega)
    have hentry : s.mem current (PAGE_TABLE_INDEX va level) ≠ 0 := by
      intro h
      apply hchild
      unfold childOf
      rw [h]
      exact Nat.zero_and _
    set idx := PAGE_TABLE_INDEX va level with hidx
    set sW := writeEntry s current idx (rwOp flags (s.mem current idx)) with hsW
    have hWmem : ∀ p i, sW.mem p i =
        if p = current ∧ i = idx then rwOp flags (s.mem p i) else s.mem p i := by
      intro p i
      rw [hsW, writeEntry_mem]
      split
      · next h => rw [h.1, h.2]
      · rfl
    have hWframe : ∀ p i, sW.mem p i = s.mem p i ∨
        sW.mem p i = rwOp flags (s.mem p i) := by
      intro p i
      rw [hWmem]
      split
      · exact Or.inr rfl
      · exact Or.inl rfl
    have hWmask : sameMasked s sW := sameMasked_of_rw_frame hf hWframe
    have hWentry : sW.mem current idx = rwOp flags (s.mem current idx) := by
      rw [hWmem, if_pos ⟨rfl, rfl⟩]
    have hnext : sW.mem current idx &&& NOT_BLOCK_OFFSET_64 = childOf s current idx := by
      rw [hWentry]
      exact rwOp_masked hf _
    obtain ⟨s', heq, hfr, hchar⟩ :=
      ih (level + 1) (childOf s current idx) sW hchild
        (by
          intro k hk
          rw [chainPage_congr hWmask, ← chainPage_shift]
          exact hchain (k + 1) (by omega))
    refine ⟨s', ?_, hfr.trans rfl, ?_⟩
    · show UpdateMappingLoop va flags false true (fuel + 1) level current s = _
      simp only [UpdateMappingLoop]
      rw [if_neg hentry]
      simp only [Bool.false_eq_true, and_false, if_false]
      rw [UpdateFlags_rw s current flags idx hc (rw_flags_low hf) (rw_flags_lt hf)
        (ptIndex_lt va level)]
      show UpdateMappingLoop va flags false true fuel (level + 1)
          (sW.mem current idx &&& NOT_BLOCK_OFFSET_64) sW = _
      rw [hnext, heq, chainPage_congr hWmask, ← chainPage_shift]
    · intro p i
      have htail : touchedCell sW va (childOf s current idx) (level + 1) fuel p i ↔
          (∃ k, 0 < k ∧ k < fuel + 1 ∧ p = chainPage s va current level k ∧
            i = PAGE_TABLE_INDEX va (level + k)) := by
        constructor
        · rintro ⟨k, hk, hp, hi⟩
          refine ⟨k + 1, by omega, by omega, ?_, ?_⟩
          · rw [hp, chainPage_congr hWmask, ← chainPage_shift]
          · rw [hi]
            congr 1
            omega
        · rintro ⟨k, hk0, hk, hp, hi⟩
          match k, hk0 with
          | k + 1, _ =>
            refine ⟨k, by omega, ?_, ?_⟩
            · rw [hp, chainPage_shift, chainPage_congr hWmask]
            · rw [hi]
              congr 1
              omega
      constructor
      · rintro ⟨k, hk, hp, hi⟩
        match k with
        | 0 =>
          -- the head cell, possibly touched again by the tail
          have hpc : p = current := by simpa [chainPage] using hp
          have hic : i = idx := by
            rw [hidx]
            simpa using hi
          by_cases htl : touchedCell sW va (childOf s current idx) (level + 1) fuel p i
          · rw [(hchar p i).1 htl, hWmem, if_pos ⟨hpc, hic⟩, rwOp_idem]
          · rw [(hchar p i).2 htl, hWmem, if_pos ⟨hpc, hic⟩]
        | k + 1 =>
          have htl : touchedCell sW va (childOf s current idx) (level + 1) fuel p i := by
            rw [htail]
            exact ⟨k + 1, by omega, by omega, hp, hi⟩
          rw [(hchar p i).1 htl]
          by_cases hhead : p = current ∧ i = idx
          · rw [hWmem, if_pos hhead, rwOp_idem]
          · rw [hWmem, if_neg hhead]
      · intro hnot
        have hnot0 : ¬ (p = current ∧ i = idx) := by
          intro h
          exact hnot ⟨0, by omega, by simpa [chainPage] using h.1, by
            rw [hidx] at h
            simpa using h.2⟩
        have hnottl : ¬ touchedCell sW va (childOf s current idx) (level + 1) fuel p i := by
          rw [htail]
          rintro ⟨k, hk0, hk, hp, hi⟩
          exact hnot ⟨k, by omega, hp, hi⟩
        rw [(hchar p i).2 hnottl, hWmem, if_neg hnot0]

/-- A single SetReadWriteFlagsOnly UpdateMapping call on an address
whose walk is fully present: it succeeds, allocates nothing, applies
only the R/W update to the entries it touches, and applies it to the
leaf entry. -/
theorem updateMapping_rw (s : PTState) (root a flags : Nat)
    (hroot : root ≠ 0) (ha : a ≠ 0) (hf : flags &&& 0xC0 = flags)
    (hpath : pathOk s root a) :
    ∃ s', UpdateMapping s root a a flags false true = (EfiStatus.success, s') ∧
      s'.fresh = s.fresh ∧
      (∀ p i, s'.mem p i = s.mem p i ∨ s'.mem p i = rwOp flags (s.mem p i)) ∧
      s'.mem (pathPage s root a 3) (PAGE_TABLE_INDEX a 3) =
        rwOp flags (s.mem (pathPage s root a 3) (PAGE_TABLE_INDEX a 3)) := by
  have hchain : ∀ k, k ≤ 3 → chainPage s a root 0 k ≠ 0 := by
    intro k hk
    match k with
    | 0 => exact hroot
    | l + 1 =>
      rw [← pathPage_eq_chain]
      exact hpath l (by omega)
  obtain ⟨s1, heq, hfr, hchar⟩ := updateMappingLoop_rw a flags hf 3 0 root s hroot hchain
  have hframe1 : ∀ p i, s1.mem p i = s.mem p i ∨
      s1.mem p i = rwOp flags (s.mem p i) := by
    intro p i
    by_cases h : touchedCell s a root 0 3 p i
    · exact Or.inr ((hchar p i).1 h)
    · exact Or.inl ((hchar p i).2 h)
  have hcur : chainPage s a root 0 3 ≠ 0 := hchain 3 (by omega)
  have hcur' : pathPage s root a 3 = chainPage s a root 0 3 := pathPage_eq_chain s root a 3
  set cur := chainPage s a root 0 3 with hcurdef
  set idx := PAGE_TABLE_INDEX a 3 with hidxdef
  have hUF := UpdateFlags_rw s1 cur flags idx hcur (rw_flags_low hf) (rw_flags_lt hf)
    (ptIndex_lt a 3)
  refine ⟨(UpdateFlags s1 cur true flags idx).2, ?_, ?_, ?_, ?_⟩
  · show UpdateMapping s root a a flags false true = _
    unfold UpdateMapping
    rw [if_neg (by
      rw [Nat.mod_eq_of_lt (rw_flags_lt hf)]
      push_neg
      exact ⟨hroot, by simpa using rw_flags_low hf, ha⟩)]
    rw [Nat.mod_eq_of_lt (rw_flags_lt hf)]
    show (match UpdateMappingLoop a flags false true (PAGE_TABLE_DEPTH - 1) 0 root s with
      | Except.error e => e
      | Except.ok (current, s1) => _) = _
    have hdep : PAGE_TABLE_DEPTH - 1 = 3 := by decide
    rw [hdep, heq]
    show (if cur ≠ 0 then _ else (EfiStatus.success, s1)) = _
    rw [if_pos hcur]
    show UpdateFlags s1 cur true flags idx = _
    rw [hUF]
  · rw [hUF, writeEntry_fresh, hfr]
  · intro p i
    rw [hUF, writeEntry_mem]
    by_cases hcell : p = cur ∧ i = idx
    · rcases hframe1 cur idx with h | h
      · rw [if_pos hcell, h, hcell.1, hcell.2]
        exact Or.inr rfl
      · rw [if_pos hcell, h, rwOp_idem, hcell.1, hcell.2]
        exact Or.inr rfl
    · rw [if_neg hcell]
      exact hframe1 p i
  · rw [hUF, writeEntry_mem, hcur', if_pos ⟨rfl, rfl⟩]
    rcases hframe1 cur idx with h | h
    · rw [h]
    · rw [h, rwOp_idem]

theorem updatePageTableLoop_rw_steps (root flags : Nat) (hroot : root ≠ 0)
    (hf : flags &&& 0xC0 = flags) (endAddr : Nat) :
    ∀ fuel cur s, endAddr - cur ≤ 0x1000 * fuel → cur ≠ 0 →
      (∀ k, cur + 0x1000 * k < endAddr → pathOk s root (cur + 0x1000 * k)) →
      (UpdatePageTableLoop root flags false true endAddr fuel cur s).1 =
        EfiStatus.success ∧
      (UpdatePageTableLoop root flags false true endAddr fuel cur s).2.1.fresh =
        s.fresh ∧
      (∀ p i, (UpdatePageTableLoop root flags false true endAddr fuel cur s).2.1.mem p i =
          s.mem p i ∨
        (UpdatePageTableLoop root flags false true endAddr fuel cur s).2.1.mem p i =
          rwOp flags (s.mem p i)) ∧
      (∀ k, cur + 0x1000 * k < endAddr →
        (UpdatePageTableLoop root flags false true endAddr fuel cur s).2.1.mem
            (pathPage s root (cur + 0x1000 * k) 3)
            (PAGE_TABLE_INDEX (cur + 0x1000 * k) 3) =
          rwOp flags (s.mem (pathPage s root (cur + 0x1000 * k) 3)
            (PAGE_TABLE_INDEX (cur + 0x1000 * k) 3))) := by
  intro fuel
  induction fuel with
  | zero =>
    intro cur s hn _hcur _hpaths
    refine ⟨rfl, rfl, fun p i => Or.inl rfl, fun k hk => absurd hk (by omega)⟩
  | succ fuel ih =>
    intro cur s hn hcur hpaths
    by_cases hlt : cur < endAddr
    · have hp0 : pathOk s root cur := by
        have h := hpaths 0 (by omega)
        simpa using h
      obtain ⟨s1, hmapeq, hfr1, hframe1, hleaf1⟩ :=
        updateMapping_rw s root cur flags hroot hcur hf hp0
      have hmask1 : sameMasked s s1 := sameMasked_of_rw_frame hf hframe1
      have ihres := ih (cur + 0x1000) s1 (by omega) (by omega) (by
        intro k hk
        have harith : cur + 0x1000 + 0x1000 * k = cur + 0x1000 * (k + 1) := by ring
        rw [harith] at hk ⊢
        exact pathOk_congr hmask1 root _ (hpaths (k + 1) hk))
      have hloopeq : UpdatePageTableLoop root flags false true endAddr (fuel + 1) cur s =
          ((UpdatePageTableLoop root flags false true endAddr fuel (cur + 0x1000) s1).1,
           (UpdatePageTableLoop root flags false true endAddr fuel (cur + 0x1000) s1).2.1,
           (cur, cur) ::
             (UpdatePageTableLoop root flags false true endAddr fuel (cur + 0x1000) s1).2.2) := by
        rw [UpdatePageTableLoop, if_pos hlt]
        rw [hmapeq]
        simp
      obtain ⟨ih1, ih2, ih3, ih4⟩ := ihres
      rw [hloopeq]
      refine ⟨ih1, ih2.trans hfr1, ?_, ?_⟩
      · intro p i
        rcases ih3 p i with h | h <;> rcases hframe1 p i with h' | h' <;>
          rw [h, h']
        · exact Or.inl rfl
        · exact Or.inr rfl
        · exact Or.inr rfl
        · exact Or.inr (rwOp_idem _ _)
      · intro k hk
        match k with
        | 0 =>
          have h4 : cur + 0x1000 * 0 = cur := by ring
          rw [h4]
          rcases ih3 (pathPage s root cur 3) (PAGE_TABLE_INDEX cur 3) with h | h <;>
            rw [h, hleaf1]
          exact rwOp_idem _ _
        | k + 1 =>
          have harith : cur + 0x1000 * (k + 1) = cur + 0x1000 + 0x1000 * k := by ring
          rw [harith] at hk ⊢
          have h := ih4 k hk
          rw [pathPage_congr hmask1] at h
          rw [h]
          rcases hframe1 (pathPage s root (cur + 0x1000 + 0x1000 * k) 3)
            (PAGE_TABLE_INDEX (cur + 0x1000 + 0x1000 * k) 3) with h' | h' <;> rw [h']
          exact rwOp_idem _ _
    · rw [UpdatePageTableLoop, if_neg hlt]
      exact ⟨rfl, rfl, fun p i => Or.inl rfl, fun k hk => absurd hk (by omega)⟩

theorem access_flags_rw {ioMmuAccess : Nat} (haccess : ioMmuAccess &&& 0x3 = ioMmuAccess) :
    (ioMmuAccess <<< 6) &&& 0xC0 = ioMmuAccess <<< 6 := by
  have h3 : ioMmuAccess ≤ 3 := by
    have h := Nat.and_le_right (n := ioMmuAccess) (m := 0x3)
    omega
  interval_cases ioMmuAccess <;> decide

/-- Claim C2 (amended): a page-table update with SetReadWriteFlagsOnly,
as issued by IoMmuSetAttribute, over a range whose walk is fully
present (as it is after IoMmuMap installed it): it never allocates
child page tables, never changes any VALID bit, changes no bits outside
the R/W bits (bit 6 and bit 7) of any entry, and on every leaf covering
the range clears both R/W bits when IoMmuAccess = 0 and ORs the flag
bits in otherwise.  Without the presence hypothesis the walk does
allocate children; see the counterexample. -/
theorem claim_C2 (s : PTState) (root : Nat) (m : IOMMU_MAP_INFO) (ioMmuAccess : Nat)
    (hroot : root ≠ 0) (hpa : m.PhysicalAddress ≠ 0) (hbytes : m.NumberOfBytes ≠ 0)
    (haccess : ioMmuAccess &&& 0x3 = ioMmuAccess)
    (hpath : ∀ k, m.PhysicalAddress + 0x1000 * k <
        alignValue4K (m.PhysicalAddress + m.NumberOfBytes) →
      pathOk s root (m.PhysicalAddress + 0x1000 * k)) :
    (IoMmuSetAttribute s root m ioMmuAccess).1 = EfiStatus.success ∧
    (IoMmuSetAttribute s root m ioMmuAccess).2.fresh = s.fresh ∧
    (∀ p i, (IoMmuSetAttribute s root m ioMmuAccess).2.mem p i &&& NOT_READ_WRITE_64 =
      s.mem p i &&& NOT_READ_WRITE_64) ∧
    (∀ p i, (IoMmuSetAttribute s root m ioMmuAccess).2.mem p i &&&
        PAGE_TABLE_ENTRY_VALID_BIT = s.mem p i &&& PAGE_TABLE_ENTRY_VALID_BIT) ∧
    (∀ x, m.PhysicalAddress ≤ x → x < m.PhysicalAddress + m.NumberOfBytes →
      readLeaf (IoMmuSetAttribute s root m ioMmuAccess).2 root x =
        if ioMmuAccess = 0 then readLeaf s root x &&& NOT_READ_WRITE_64
        else readLeaf s root x ||| (ioMmuAccess <<< 6)) := by
  have hf : (ioMmuAccess <<< 6) &&& 0xC0 = ioMmuAccess <<< 6 := access_flags_rw haccess
  have hSA : IoMmuSetAttribute s root m ioMmuAccess =
      ((UpdatePageTable s root m.PhysicalAddress m.NumberOfBytes
         (ioMmuAccess <<< 6) false true).1,
       (UpdatePageTable s root m.PhysicalAddress m.NumberOfBytes
         (ioMmuAccess <<< 6) false true).2.1) := by
    unfold IoMmuSetAttribute
    rw [if_neg (by
      show ¬ (ioMmuAccess &&&
        (EDKII_IOMMU_ACCESS_READ ||| EDKII_IOMMU_ACCESS_WRITE) ≠ ioMmuAccess)
      have h12 : (EDKII_IOMMU_ACCESS_READ ||| EDKII_IOMMU_ACCESS_WRITE : Nat) = 0x3 := by
        decide
      rw [h12]
      exact fun h => h haccess)]
  have hUPTeq : UpdatePageTable s root m.PhysicalAddress m.NumberOfBytes
      (ioMmuAccess <<< 6) false true =
      UpdatePageTableLoop root (ioMmuAccess <<< 6) false true
        (alignValue4K (m.PhysicalAddress + m.NumberOfBytes))
        (stepCount (alignValue4K (m.PhysicalAddress + m.NumberOfBytes)) m.PhysicalAddress)
        m.PhysicalAddress s := by
    simp only [UpdatePageTable, Nat.mod_eq_of_lt (rw_flags_lt hf)]
    rw [if_neg]
    push_neg
    exact ⟨hroot, by simpa using rw_flags_low hf, hpa, hbytes⟩
  obtain ⟨hst, hfr, hframe, hleaf⟩ :=
    updatePageTableLoop_rw_steps root (ioMmuAccess <<< 6) hroot hf
      (alignValue4K (m.PhysicalAddress + m.NumberOfBytes))
      (stepCount (alignValue4K (m.PhysicalAddress + m.NumberOfBytes)) m.PhysicalAddress)
      m.PhysicalAddress s
      (by unfold stepCount; omega) hpa hpath
  rw [hSA, hUPTeq]
  refine ⟨hst, hfr, ?_, ?_, ?_⟩
  · intro p i
    rcases hframe p i with h | h <;> rw [h]
    exact rwOp_outside hf _
  · intro p i
    rcases hframe p i with h | h <;> rw [h]
    exact rwOp_valid hf _
  · intro x hx1 hx2
    obtain ⟨k, hpage, hbound⟩ := step_addr_page m.PhysicalAddress x hx1
    have halt : m.PhysicalAddress + 0x1000 * k <
        alignValue4K (m.PhysicalAddress + m.NumberOfBytes) :=
      hbound _ (alignValue4K_mod _) (lt_of_lt_of_le hx2 (alignValue4K_ge _))
    have hIDX : ∀ l, PAGE_TABLE_INDEX x l =
        PAGE_TABLE_INDEX (m.PhysicalAddress + 0x1000 * k) l :=
      ptIndex_congr_of_page hpage.symm
    have hpp := pathPage_addr_congr s root hIDX
    have hmaskfin := sameMasked_of_rw_frame hf hframe
    unfold readLeaf
    rw [pathPage_congr hmaskfin, hpp 3, hIDX 3, hleaf k halt]
    unfold rwOp
    by_cases h0 : ioMmuAccess = 0
    · subst h0
      rw [if_neg (show ¬ ((0 : Nat) <<< 6 ≠ 0) by decide), if_pos rfl]
    · have hfne : ioMmuAccess <<< 6 ≠ 0 := by
        rw [Nat.shiftLeft_eq]
        have h64 : (2 : Nat) ^ 6 = 64 := by norm_num
        rw [h64]
        omega
      rw [if_pos hfne, if_neg h0]

/-- An all-zero page-table memory with a root at 0x1000 and allocatable
pages, for concrete runs that start from an unmapped table. -/
def initState : PTState :=
  ⟨fun _ _ => 0, [0x2000, 0x3000, 0x4000, 0x5000, 0x6000, 0x7000]⟩

/-- A one-page mapping record over an unmapped range. -/
def cMapInfo : IOMMU_MAP_INFO :=
  { NumberOfBytes := 0x1000, VirtualAddress := 0x10000, PhysicalAddress := 0x10000 }

/-- Claim C2 counterexample: issued over a range whose intermediate
entries are absent, the SetReadWriteFlagsOnly update DOES allocate
child page tables (three pages are consumed from the allocator) and
changes bits far outside R/W (the root entry goes from 0 to 0x2040, a
child pointer with bit 6 ORed in), refuting the claim as stated. -/
theorem claim_C2_counterexample :
    (IoMmuSetAttribute initState 0x1000 cMapInfo 0x1).1 = EfiStatus.success ∧
    initState.fresh = [0x2000, 0x3000, 0x4000, 0x5000, 0x6000, 0x7000] ∧
    (IoMmuSetAttribute initState 0x1000 cMapInfo 0x1).2.fresh =
      [0x5000, 0x6000, 0x7000] ∧
    initState.mem 0x1000 0 = 0 ∧
    (IoMmuSetAttribute initState 0x1000 cMapInfo 0x1).2.mem 0x1000 0 = 0x2040 := by
  refine ⟨by decide, by decide, by decide, by decide, by decide⟩

theorem claim_C2_witness :
    (IoMmuSetAttribute wState 0x1000 wMapInfo 0x1).1 = EfiStatus.success ∧
    (IoMmuSetAttribute wState 0x1000 wMapInfo 0x1).2.fresh = wState.fresh :=
  ⟨(claim_C2 wState 0x1000 wMapInfo 0x1 (by decide) (by decide) (by decide) (by decide)
      (by
        intro k hk
        have hend : alignValue4K (wMapInfo.PhysicalAddress + wMapInfo.NumberOfBytes) =
            0x12000 := by decide
        rw [hend] at hk
        have hpa : wMapInfo.PhysicalAddress = 0x10000 := rfl
        rw [hpa] at hk ⊢
        have hk2 : k < 2 := by omega
        interval_cases k
        · decide
        · decide)).1,
   (claim_C2 wState 0x1000 wMapInfo 0x1 (by decide) (by decide) (by decide) (by decide)
      (by
        intro k hk
        have hend : alignValue4K (wMapInfo.PhysicalAddress + wMapInfo.NumberOfBytes) =
            0x12000 := by decide
        rw [hend] at hk
        have hpa : wMapInfo.PhysicalAddress = 0x10000 := rfl
        rw [hpa] at hk ⊢
        have hk2 : k < 2 := by omega
        interval_cases k
        · decide
        · decide)).2.1⟩

/-! ## The UpdateMapping call log of the UpdatePageTable walk -/

theorem nat_and_or_left (a b c : Nat) : a &&& (b ||| c) = (a &&& b) ||| (a &&& c) := by
  apply Nat.eq_of_testBit_eq
  intro i
  simp only [Nat.testBit_and, Nat.testBit_or]
  cases a.testBit i <;> cases b.testBit i <;> cases c.testBit i <;> rfl

theorem low16_and_high (a : Nat) (ha : a < 0x10000) :
    a &&& 0xFFFFFFFFFFFF0000 = 0 := by
  apply Nat.eq_of_testBit_eq
  intro i
  simp only [Nat.testBit_and, Nat.zero_testBit]
  by_cases hi : i < 16
  · have hm : (0xFFFFFFFFFFFF0000 : Nat).testBit i = false := by
      interval_cases i <;> rfl
    simp [hm]
  · have hf : a.testBit i = false := by
      apply Nat.testBit_eq_false_of_lt
      calc a < 0x10000 := ha
        _ = 2 ^ 16 := by norm_num
        _ ≤ 2 ^ i := Nat.pow_le_pow_right (by norm_num) (by omega)
    simp [hf]

theorem flags_and_high {flags : Nat} (h1 : flags &&& 0xF000 = 0) (h2 : flags < 0x10000) :
    flags &&& NOT_BLOCK_OFFSET_64 = 0 := by
  have hdec : NOT_BLOCK_OFFSET_64 = (0xF000 ||| 0xFFFFFFFFFFFF0000 : Nat) := by decide
  rw [hdec, nat_and_or_left, h1, low16_and_high flags h2, Nat.or_zero]

theorem entry_or_masked (e flags : Nat) (hfM : flags &&& NOT_BLOCK_OFFSET_64 = 0) :
    ((e ||| PAGE_TABLE_ENTRY_VALID_BIT) ||| flags) &&& NOT_BLOCK_OFFSET_64 =
      e &&& NOT_BLOCK_OFFSET_64 := by
  rw [nat_and_or_right, nat_and_or_right, hfM, Nat.or_zero]
  have h1 : PAGE_TABLE_ENTRY_VALID_BIT &&& NOT_BLOCK_OFFSET_64 = 0 := by decide
  rw [h1, Nat.or_zero]

/-- One successful step of the UpdatePageTable while loop. -/
theorem updatePageTableLoop_step (root flags : Nat) (valid setRWOnly : Bool)
    (endAddr fuel cur : Nat) (s : PTState) (hlt : cur < endAddr)
    (hm : (UpdateMapping s root cur cur flags valid setRWOnly).1 = EfiStatus.success) :
    UpdatePageTableLoop root flags valid setRWOnly endAddr (fuel + 1) cur s =
      ((UpdatePageTableLoop root flags valid setRWOnly endAddr fuel (cur + 0x1000)
          (UpdateMapping s root cur cur flags valid setRWOnly).2).1,
       (UpdatePageTableLoop root flags valid setRWOnly endAddr fuel (cur + 0x1000)
          (UpdateMapping s root cur cur flags valid setRWOnly).2).2.1,
       (cur, cur) ::
         (UpdatePageTableLoop root flags valid setRWOnly endAddr fuel (cur + 0x1000)
            (UpdateMapping s root cur cur flags valid setRWOnly).2).2.2) := by
  have hms : UpdateMapping s root cur cur flags valid setRWOnly =
      (EfiStatus.success, (UpdateMapping s root cur cur flags valid setRWOnly).2) := by
    rw [← hm]
  rw [UpdatePageTableLoop, if_pos hlt, hms]
  simp

/-- One failing step of the UpdatePageTable while loop. -/
theorem updatePageTableLoop_step_err (root flags : Nat) (valid setRWOnly : Bool)
    (endAddr fuel cur : Nat) (s : PTState) (hlt : cur < endAddr)
    (hm : (UpdateMapping s root cur cur flags valid setRWOnly).1 ≠ EfiStatus.success) :
    UpdatePageTableLoop root flags valid setRWOnly endAddr (fuel + 1) cur s =
      ((UpdateMapping s root cur cur flags valid setRWOnly).1,
       (UpdateMapping s root cur cur flags valid setRWOnly).2,
       [(cur, cur)]) := by
  rw [UpdatePageTableLoop, if_pos hlt]
  simp only [if_neg hm]

/-- On a successful run, the walk passes UpdateMapping exactly the
addresses `cur, cur + 0x1000, ...` strictly below `endAddr`, with the
virtual address equal to the physical address each time. -/
theorem updatePageTableLoop_log (root flags : Nat) (valid setRWOnly : Bool)
    (endAddr : Nat) :
    ∀ fuel cur s, endAddr - cur ≤ 0x1000 * fuel →
      (UpdatePageTableLoop root flags valid setRWOnly endAddr fuel cur s).1 =
        EfiStatus.success →
      (UpdatePageTableLoop root flags valid setRWOnly endAddr fuel cur s).2.2 =
        (List.range (stepCount endAddr cur)).map
          (fun k => (cur + 0x1000 * k, cur + 0x1000 * k)) := by
  intro fuel
  induction fuel with
  | zero =>
    intro cur s hn _hst
    have h0 : stepCount endAddr cur = 0 := by
      unfold stepCount
      omega
    rw [h0]
    rfl
  | succ fuel ih =>
    intro cur s hn hst
    by_cases hlt : cur < endAddr
    · by_cases hm : (UpdateMapping s root cur cur flags valid setRWOnly).1 =
          EfiStatus.success
      · rw [updatePageTableLoop_step root flags valid setRWOnly endAddr fuel cur s hlt hm]
          at hst ⊢
        have htail := ih (cur + 0x1000)
          (UpdateMapping s root cur cur flags valid setRWOnly).2 (by omega) hst
        show _ :: _ = _
        rw [htail]
        have hsc : stepCount endAddr cur = stepCount endAddr (cur + 0x1000) + 1 := by
          unfold stepCount
          omega
        rw [hsc, List.range_succ_eq_map, List.map_cons, List.map_map]
        congr 1
        apply List.map_congr_left
        intro k _
        simp only [Function.comp_apply, Prod.mk.injEq]
        omega
      · rw [updatePageTableLoop_step_err root flags valid setRWOnly endAddr fuel cur s
          hlt hm] at hst
        exact absurd hst hm
    · rw [UpdatePageTableLoop, if_neg hlt]
      have h0 : stepCount endAddr cur = 0 := by
        unfold stepCount
        omega
      rw [h0]
      rfl

/-! ## The walk in Map configuration (Valid = TRUE), with allocation -/

/-- The traversal of UpdateMapping in the Map configuration keeps the
allocator and entry well-formedness invariants, never reports success
through an error, and on success reaches a non-NULL leaf table. -/
theorem updateMappingLoop_map_wf (va flags : Nat) (hflags : flags &&& 0xF000 = 0)
    (hlt16 : flags < 0x10000) :
    ∀ fuel level current s, current ≠ 0 → FreshWF s → EntriesWF s →
      (∀ e, UpdateMappingLoop va flags true false fuel level current s =
          Except.error e → e.1 ≠ EfiStatus.success) ∧
      (∀ cur' s1, UpdateMappingLoop va flags true false fuel level current s =
          Except.ok (cur', s1) → cur' ≠ 0 ∧ FreshWF s1 ∧ EntriesWF s1) := by
  have hfM : flags &&& NOT_BLOCK_OFFSET_64 = 0 := flags_and_high hflags hlt16
  intro fuel
  induction fuel with
  | zero =>
    intro level current s hcur hfw hew
    constructor
    · intro e heq
      simp [UpdateMappingLoop] at heq
    · intro cur' s1 heq
      simp only [UpdateMappingLoop, Except.ok.injEq, Prod.mk.injEq] at heq
      rw [← heq.1, ← heq.2]
      exact ⟨hcur, hfw, hew⟩
  | succ fuel ih =>
    intro level current s hcur hfw hew
    set idx := PAGE_TABLE_INDEX va level with hidx
    by_cases hz : s.mem current idx = 0
    · -- allocation branch
      match hfresh : s.fresh with
      | [] =>
        have halloc : allocatePages1 s = (0, s) := by
          unfold allocatePages1
          rw [hfresh]
        have hres : UpdateMappingLoop va flags true false (fuel + 1) level current s =
            Except.error (EfiStatus.outOfResources, s) := by
          simp only [UpdateMappingLoop, ← hidx]
          rw [if_pos hz, halloc]
          simp
        rw [hres]
        constructor
        · intro e heq
          injection heq with h
          rw [← h]
          simp
        · intro cur' s1 heq
          simp at heq
      | a :: rest =>
        have hA := hfw a (by rw [hfresh]; exact List.mem_cons_self a rest)
        have halloc : allocatePages1 s = (a, ⟨s.mem, rest⟩) := by
          unfold allocatePages1
          rw [hfresh]
        set sAl := writeEntry (zeroPage ⟨s.mem, rest⟩ a) current idx a with hsAl
        set s2 := writeEntry sAl current idx (sAl.mem current idx |||
          PAGE_TABLE_ENTRY_VALID_BIT) with hs2
        have hAl_entry : sAl.mem current idx = a := by
          rw [hsAl, writeEntry_mem, if_pos ⟨rfl, rfl⟩]
        have hs2_entry : s2.mem current idx = a ||| PAGE_TABLE_ENTRY_VALID_BIT := by
          rw [hs2, writeEntry_mem, if_pos ⟨rfl, rfl⟩, hAl_entry]
        have hUF := UpdateFlags_notRW s2 current flags idx hcur hflags hlt16
          (hidx ▸ ptIndex_lt va level)
        set s3 := writeEntry s2 current idx (s2.mem current idx ||| flags) with hs3
        have hs3_entry : s3.mem current idx =
            (a ||| PAGE_TABLE_ENTRY_VALID_BIT) ||| flags := by
          rw [hs3, writeEntry_mem, if_pos ⟨rfl, rfl⟩, hs2_entry]
        have hnext : s3.mem current idx &&& NOT_BLOCK_OFFSET_64 = a := by
          rw [hs3_entry, entry_or_masked a flags hfM,
            aligned_and_high a hA.1 hA.2.2]
        have hres : UpdateMappingLoop va flags true false (fuel + 1) level current s =
            UpdateMappingLoop va flags true false fuel (level + 1) a s3 := by
          simp only [UpdateMappingLoop, ← hidx]
          rw [if_pos hz, halloc]
          rw [if_neg (show ¬ (a = 0) from hA.2.1)]
          show (if (UpdateFlags s2 current false flags idx).1 = EfiStatus.success then
              UpdateMappingLoop va flags true false fuel (level + 1)
                ((UpdateFlags s2 current false flags idx).2.mem current idx &&&
                  NOT_BLOCK_OFFSET_64) (UpdateFlags s2 current false flags idx).2
            else
              Except.error ((UpdateFlags s2 current false flags idx).1,
                (UpdateFlags s2 current false flags idx).2)) = _
          rw [hUF]
          show UpdateMappingLoop va flags true false fuel (level + 1)
              (s3.mem current idx &&& NOT_BLOCK_OFFSET_64) s3 = _
          rw [hnext]
        have hfw3 : FreshWF s3 := by
          intro f hf
          apply hfw
          rw [hfresh]
          rw [hs3, hs2, hsAl] at hf
          exact List.mem_cons_of_mem a hf
        have hew3 : EntriesWF s3 := by
          intro p i hne
          by_cases hcell : p = current ∧ i = idx
          · rw [hcell.1, hcell.2, hs3_entry]
            rw [entry_or_masked a flags hfM, aligned_and_high a hA.1 hA.2.2]
            exact hA.2.1
          · rw [hs3, writeEntry_mem, if_neg hcell, hs2, writeEntry_mem, if_neg hcell,
              hsAl, writeEntry_mem, if_neg hcell] at hne ⊢
            show (zeroPage ⟨s.mem, rest⟩ a).mem p i &&& NOT_BLOCK_OFFSET_64 ≠ 0
            show (if p = a then 0 else s.mem p i) &&& NOT_BLOCK_OFFSET_64 ≠ 0
            have hne' : (if p = a then 0 else s.mem p i) ≠ 0 := hne
            by_cases hpa : p = a
            · rw [if_pos hpa] at hne'
              exact absurd rfl hne'
            · rw [if_neg hpa] at hne' ⊢
              exact hew p i hne'
        rw [hres]
        exact ih (level + 1) a s3 hA.2.1 hfw3 hew3
    · -- entry already present
      set s2 := writeEntry s current idx (s.mem current idx |||
        PAGE_TABLE_ENTRY_VALID_BIT) with hs2
      have hs2_entry : s2.mem current idx =
          s.mem current idx ||| PAGE_TABLE_ENTRY_VALID_BIT := by
        rw [hs2, writeEntry_mem, if_pos ⟨rfl, rfl⟩]
      have hUF := UpdateFlags_notRW s2 current flags idx hcur hflags hlt16
        (hidx ▸ ptIndex_lt va level)
      set s3 := writeEntry s2 current idx (s2.mem current idx ||| flags) with hs3
      have hs3_entry : s3.mem current idx =
          (s.mem current idx ||| PAGE_TABLE_ENTRY_VALID_BIT) ||| flags := by
        rw [hs3, writeEntry_mem, if_pos ⟨rfl, rfl⟩, hs2_entry]
      have hnext : s3.mem current idx &&& NOT_BLOCK_OFFSET_64 =
          s.mem current idx &&& NOT_BLOCK_OFFSET_64 := by
        rw [hs3_entry, entry_or_masked _ flags hfM]
      have hnext_ne : s3.mem current idx &&& NOT_BLOCK_OFFSET_64 ≠ 0 := by
        rw [hnext]
        exact hew current idx hz
      have hres : UpdateMappingLoop va flags true false (fuel + 1) level current s =
          UpdateMappingLoop va flags true false fuel (level + 1)
            (s3.mem current idx &&& NOT_BLOCK_OFFSET_64) s3 := by
        simp only [UpdateMappingLoop, ← hidx]
        rw [if_neg hz]
        show (if (UpdateFlags s2 current false flags idx).1 = EfiStatus.success then
            UpdateMappingLoop va flags true false fuel (level + 1)
              ((UpdateFlags s2 current false flags idx).2.mem current idx &&&
                NOT_BLOCK_OFFSET_64) (UpdateFlags s2 current false flags idx).2
          else
            Except.error ((UpdateFlags s2 current false flags idx).1,
              (UpdateFlags s2 current false flags idx).2)) = _
        rw [hUF]
        rfl
      have hfw3 : FreshWF s3 := by
        intro f hf
        apply hfw
        rw [hs3, hs2] at hf
        exact hf
      have hew3 : EntriesWF s3 := by
        intro p i hne
        by_cases hcell : p = current ∧ i = idx
        · rw [hcell.1, hcell.2, hs3_entry, entry_or_masked _ flags hfM]
          exact hew current idx hz
        · rw [hs3, writeEntry_mem, if_neg hcell, hs2, writeEntry_mem, if_neg hcell]
            at hne ⊢
          exact hew p i hne
      rw [hres]
      exact ih (level + 1) (s3.mem current idx &&& NOT_BLOCK_OFFSET_64) s3
        hnext_ne hfw3 hew3

theorem identity_mask (va flags : Nat) (hflags : flags &&& 0xF000 = 0)
    (hlt16 : flags < 0x10000) :
    (((va &&& NOT_BLOCK_OFFSET_64) ||| PAGE_TABLE_ENTRY_VALID_BIT) ||| flags) &&&
      0xFFFFFFFFF000 = va &&& 0xFFFFFFFFF000 := by
  rw [nat_and_or_right, nat_and_or_right]
  have h1 : PAGE_TABLE_ENTRY_VALID_BIT &&& 0xFFFFFFFFF000 = 0 := by decide
  have h2 : flags &&& 0xFFFFFFFFF000 = 0 := by
    have hdec : (0xFFFFFFFFF000 : Nat) = 0xF000 ||| 0xFFFFFFFF0000 := by decide
    rw [hdec, nat_and_or_left, hflags, Nat.zero_or]
    have h3 : (0xFFFFFFFF0000 : Nat) = 0xFFFFFFFFFFFF0000 &&& 0xFFFFFFFF0000 := by decide
    rw [h3, ← nat_and_and_right, low16_and_high flags hlt16, Nat.zero_and]
  rw [h1, h2, Nat.or_zero, Nat.or_zero, nat_and_and_right]
  have h4 : NOT_BLOCK_OFFSET_64 &&& 0xFFFFFFFFF000 = 0xFFFFFFFFF000 := by decide
  rw [h4]

/-- A successful identity-map UpdateMapping call (Valid = TRUE, equal
virtual and physical address, as issued by the UpdatePageTable walk of
IoMmuMap) installs a leaf whose output address field equals the input
address. -/
theorem updateMapping_identity (s : PTState) (root va flags : Nat)
    (hroot : root ≠ 0) (hva : va ≠ 0) (hflags : flags &&& 0xF000 = 0)
    (hlt16 : flags < 0x10000) (hfw : FreshWF s) (hew : EntriesWF s)
    (hst : (UpdateMapping s root va va flags true false).1 = EfiStatus.success) :
    ∃ page, page ≠ 0 ∧
      (UpdateMapping s root va va flags true false).2.mem page
        (PAGE_TABLE_INDEX va 3) =
        ((va &&& NOT_BLOCK_OFFSET_64) ||| PAGE_TABLE_ENTRY_VALID_BIT) ||| flags ∧
      (((va &&& NOT_BLOCK_OFFSET_64) ||| PAGE_TABLE_ENTRY_VALID_BIT) ||| flags) &&&
        0xFFFFFFFFF000 = va &&& 0xFFFFFFFFF000 := by
  have hcheck : ¬ (root = 0 ∨ flags % 0x10000 &&& 0xF000 ≠ 0 ∨ va = 0) := by
    rw [Nat.mod_eq_of_lt hlt16]
    push_neg
    exact ⟨hroot, by simpa using hflags, hva⟩
  have hwf := updateMappingLoop_map_wf va flags hflags hlt16 (PAGE_TABLE_DEPTH - 1)
    0 root s hroot hfw hew
  cases hloop : UpdateMappingLoop va flags true false (PAGE_TABLE_DEPTH - 1) 0 root s with
  | error e =>
    exfalso
    apply hwf.1 e hloop
    have hUM : UpdateMapping s root va va flags true false = e := by
      unfold UpdateMapping
      rw [if_neg hcheck, Nat.mod_eq_of_lt hlt16, hloop]
    rw [← hUM]
    exact hst
  | ok pair =>
    obtain ⟨cur', s1⟩ := pair
    obtain ⟨hcne, _hfw1, _hew1⟩ := hwf.2 cur' s1 hloop
    set idx := PAGE_TABLE_INDEX va (PAGE_TABLE_DEPTH - 1) with hidx
    set sA := writeEntry s1 cur' idx (va &&& NOT_BLOCK_OFFSET_64) with hsA
    set sB := writeEntry sA cur' idx (sA.mem cur' idx |||
      PAGE_TABLE_ENTRY_VALID_BIT) with hsB
    have hsA_entry : sA.mem cur' idx = va &&& NOT_BLOCK_OFFSET_64 := by
      rw [hsA, writeEntry_mem, if_pos ⟨rfl, rfl⟩]
    have hsB_entry : sB.mem cur' idx =
        (va &&& NOT_BLOCK_OFFSET_64) ||| PAGE_TABLE_ENTRY_VALID_BIT := by
      rw [hsB, writeEntry_mem, if_pos ⟨rfl, rfl⟩, hsA_entry]
    have hUF := UpdateFlags_notRW sB cur' flags idx hcne hflags hlt16
      (hidx ▸ ptIndex_lt va (PAGE_TABLE_DEPTH - 1))
    have hUM : UpdateMapping s root va va flags true false =
        (EfiStatus.success, writeEntry sB cur' idx (sB.mem cur' idx ||| flags)) := by
      unfold UpdateMapping
      rw [if_neg hcheck, Nat.mod_eq_of_lt hlt16, hloop]
      show (if cur' ≠ 0 then _ else (EfiStatus.success, s1)) = _
      rw [if_pos hcne]
      show UpdateFlags sB cur' false flags idx = _
      rw [hUF]
    refine ⟨cur', hcne, ?_, identity_mask va flags hflags hlt16⟩
    rw [hUM]
    show (writeEntry sB cur' idx (sB.mem cur' idx ||| flags)).mem cur' idx = _
    rw [writeEntry_mem, if_pos ⟨rfl, rfl⟩, hsB_entry]

/-- A state whose page allocator is exhausted. -/
def noFreshState : PTState := ⟨fun _ _ => 0, []⟩

/-- Claim C6 (amended): for every UpdatePageTable call with valid
parameters whose run succeeds, UpdateMapping is invoked exactly once
per 4 KiB step address pa, pa + 0x1000, ... strictly below
ALIGN_VALUE(pa + bytes, 4 KiB), each time with the virtual address
equal to the physical address; and every leaf a successful identity
UpdateMapping call installs has output address field (bits 47..12)
equal to the input address bits 47..12.  (When a mid-walk allocation
fails, the walk stops at the failing step, so the per-step property
needs the success hypothesis; see the counterexample.) -/
theorem claim_C6 :
    (∀ (s : PTState) (root pa bytes flags : Nat) (valid setRWOnly : Bool),
      root ≠ 0 → (flags % 0x10000) &&& 0xF000 = 0 → pa ≠ 0 → bytes ≠ 0 →
      (UpdatePageTable s root pa bytes flags valid setRWOnly).1 = EfiStatus.success →
      (UpdatePageTable s root pa bytes flags valid setRWOnly).2.2 =
        (List.range (stepCount (alignValue4K (pa + bytes)) pa)).map
          (fun k => (pa + 0x1000 * k, pa + 0x1000 * k))) ∧
    (∀ (s : PTState) (root va flags : Nat),
      root ≠ 0 → va ≠ 0 → flags &&& 0xF000 = 0 → flags < 0x10000 →
      FreshWF s → EntriesWF s →
      (UpdateMapping s root va va flags true false).1 = EfiStatus.success →
      ∃ page, page ≠ 0 ∧
        (UpdateMapping s root va va flags true false).2.mem page
          (PAGE_TABLE_INDEX va 3) =
          ((va &&& NOT_BLOCK_OFFSET_64) ||| PAGE_TABLE_ENTRY_VALID_BIT) ||| flags ∧
        (((va &&& NOT_BLOCK_OFFSET_64) ||| PAGE_TABLE_ENTRY_VALID_BIT) ||| flags) &&&
          0xFFFFFFFFF000 = va &&& 0xFFFFFFFFF000) := by
  constructor
  · intro s root pa bytes flags valid setRWOnly hroot hflags hpa hbytes hst
    have hUPTeq : UpdatePageTable s root pa bytes flags valid setRWOnly =
        UpdatePageTableLoop root (flags % 0x10000) valid setRWOnly
          (alignValue4K (pa + bytes)) (stepCount (alignValue4K (pa + bytes)) pa) pa s := by
      simp only [UpdatePageTable]
      rw [if_neg]
      push_neg
      exact ⟨hroot, by simpa using hflags, hpa, hbytes⟩
    rw [hUPTeq] at hst ⊢
    exact updatePageTableLoop_log root (flags % 0x10000) valid setRWOnly _ _ pa s
      (by unfold stepCount; omega) hst
  · intro s root va flags h1 h2 h3 h4 h5 h6 h7
    exact updateMapping_identity s root va flags h1 h2 h3 h4 h5 h6 h7

/-- Claim C6 counterexample: with valid parameters but an exhausted
page allocator, a two-page walk invokes UpdateMapping only for the
first step address before stopping with an error, so the claim as
stated (one invocation per step address, unconditionally) fails. -/
theorem claim_C6_counterexample :
    (0x1000 : Nat) ≠ 0 ∧ ((0x402 % 0x10000 : Nat) &&& 0xF000 = 0) ∧
    (0x10000 : Nat) ≠ 0 ∧ (0x2000 : Nat) ≠ 0 ∧
    (UpdatePageTable noFreshState 0x1000 0x10000 0x2000 0x402 true false).2.2 =
      [(0x10000, 0x10000)] ∧
    stepCount (alignValue4K (0x10000 + 0x2000)) 0x10000 = 2 := by
  exact ⟨by decide, by decide, by decide, by decide, by decide, by decide⟩

theorem claim_C6_witness :
    ((UpdatePageTable initState 0x1000 0x10000 0x2000 0x402 true false).2.2 =
      (List.range (stepCount (alignValue4K (0x10000 + 0x2000)) 0x10000)).map
        (fun k => (0x10000 + 0x1000 * k, 0x10000 + 0x1000 * k))) ∧
    (∃ page, page ≠ 0 ∧
      (UpdateMapping initState 0x1000 0x10000 0x10000 0x402 true false).2.mem page
        (PAGE_TABLE_INDEX 0x10000 3) =
        ((0x10000 &&& NOT_BLOCK_OFFSET_64) ||| PAGE_TABLE_ENTRY_VALID_BIT) ||| 0x402 ∧
      (((0x10000 &&& NOT_BLOCK_OFFSET_64) ||| PAGE_TABLE_ENTRY_VALID_BIT) ||| 0x402) &&&
        0xFFFFFFFFF000 = 0x10000 &&& 0xFFFFFFFFF000) :=
  ⟨claim_C6.1 initState 0x1000 0x10000 0x2000 0x402 true false (by decide) (by decide)
     (by decide) (by decide) (by decide),
   claim_C6.2 initState 0x1000 0x10000 0x402 (by decide) (by decide) (by decide)
     (by decide) (by unfold FreshWF initState; decide) (fun p i h => absurd rfl h)
     (by decide)⟩

/-! ## Claims over the command and event queues, map error paths, and
the address-width codecs -/

/-- A command-queue environment in which PROD and CONS both read 2:
with a 2-entry queue (log2size 1) the slot indices are 0 and the wrap
bits agree, so the queue is not full and SendCommand proceeds. -/
def c1Env : CmdQEnv := ⟨fun _ => 2, fun _ => 2⟩

/-- Claim C1: with a 2-entry command queue whose PROD read at entry is
2 (slot 0, wrap bit set) and whose slot does not wrap on advance, the
call proceeds past the full-queue wait yet writes 1 to SMMU_CMDQ_PROD,
while the spec's advance rule (slot + 1, wrap bit preserved when the
slot does not wrap) requires 3: the code truncates the wrap bit, since
NewProducerIndex is computed from ProducerIndex = WriteIndex &
QueueMask, which has the wrap bit already masked off. -/
theorem claim_C1 :
    (SmmuV3SendCommand c1Env 1 CMD_SYNC_NO_INTERRUPT).status = EfiStatus.success ∧
    queueIndexField (c1Env.prodReads 0) &&& SMMUV3_COUNT_FROM_LOG2 1 ≠ 0 ∧
    (queueIndexField (c1Env.prodReads 0) &&& (SMMUV3_COUNT_FROM_LOG2 1 - 1)) + 1 ≠
      SMMUV3_COUNT_FROM_LOG2 1 ∧
    (SmmuV3SendCommand c1Env 1 CMD_SYNC_NO_INTERRUPT).prodWrites = [1] ∧
    specAdvanceProd (queueIndexField (c1Env.prodReads 0)) 1 = 3 ∧
    (1 : Nat) ≠ 3 := by
  exact ⟨by decide, by decide, by decide, by decide, by decide, by decide⟩

/-- Claim C3: an execution of IoMmuMap in which the page-table update
succeeds but AllocateZeroPool returns NULL stores through the NULL
MapInfo pointer instead of returning EFI_OUT_OF_RESOURCES. -/
theorem claim_C3 :
    (IoMmuMap initState 0x1000 false 0x10000 0x1000).isNullDeref = true ∧
    (IoMmuMap initState 0x1000 false 0x10000 0x1000).status ≠
      some EfiStatus.outOfResources ∧
    (UpdatePageTable initState 0x1000 0x10000 0x1000
      (PAGE_TABLE_ACCESS_FLAG ||| PAGE_TABLE_DESCRIPTOR) true false).1 =
      EfiStatus.success := by
  exact ⟨by decide, by decide, by decide⟩

/-- An event-queue environment whose PROD and CONS reads are both 0:
the queue is empty. -/
def c4Env : EvtQEnv := ⟨0, 0, fun _ => zeroFaultRecord⟩

/-- Claim C4: on an empty event queue, SmmuV3ConsumeEventQueueForErrors
returns success with *IsEmpty = TRUE, but it leaves the caller's
FaultRecord buffer untouched rather than zeroing it: a non-zero
record passed in comes back unchanged. -/
theorem claim_C4 :
    (SmmuV3ConsumeEventQueueForErrors c4Env 7 ⟨1, 2, 3, 4⟩).status =
      EfiStatus.success ∧
    (SmmuV3ConsumeEventQueueForErrors c4Env 7 ⟨1, 2, 3, 4⟩).isEmpty = true ∧
    (SmmuV3ConsumeEventQueueForErrors c4Env 7 ⟨1, 2, 3, 4⟩).fault = ⟨1, 2, 3, 4⟩ ∧
    (⟨1, 2, 3, 4⟩ : SMMUV3_FAULT_RECORD) ≠ zeroFaultRecord := by
  exact ⟨by decide, by decide, by decide, by decide⟩

/-- Claim C7: IoMmuMap with HostAddress 0 returns the invalid-parameter
error with the page table unchanged, and UpdatePageTable and
UpdateMapping reject PhysicalAddress = 0 before modifying any entry. -/
theorem claim_C7 :
    (∀ (s : PTState) (root : Nat) (poolAllocOk : Bool) (numberOfBytes : Nat),
      IoMmuMap s root poolAllocOk 0 numberOfBytes =
        MapOutcome.err EfiStatus.invalidParameter s) ∧
    (∀ (s : PTState) (root bytes flags : Nat) (valid setRWOnly : Bool),
      UpdatePageTable s root 0 bytes flags valid setRWOnly =
        (EfiStatus.invalidParameter, s, [])) ∧
    (∀ (s : PTState) (root va flags : Nat) (valid setRWOnly : Bool),
      UpdateMapping s root va 0 flags valid setRWOnly =
        (EfiStatus.invalidParameter, s)) := by
  refine ⟨?_, ?_, ?_⟩
  · intro s root poolAllocOk numberOfBytes
    unfold IoMmuMap
    rw [if_pos (Or.inl rfl)]
  · intro s root bytes flags valid setRWOnly
    unfold UpdatePageTable
    rw [if_pos (Or.inr (Or.inr (Or.inl rfl)))]
  · intro s root va flags valid setRWOnly
    unfold UpdateMapping
    rw [if_pos (Or.inr (Or.inr rfl))]

/-- Claim C10: SmmuV3DecodeAddressWidth and SmmuV3EncodeAddressWidth
are mutually inverse on the seven address-size types and the seven
widths, and each returns 0 outside its domain. -/
theorem claim_C10 :
    (∀ t, t < 7 → SmmuV3EncodeAddressWidth (SmmuV3DecodeAddressWidth t) = t) ∧
    (∀ w, w ∈ [32, 36, 40, 42, 44, 48, 52] →
      SmmuV3DecodeAddressWidth (SmmuV3EncodeAddressWidth w) = w) ∧
    (∀ t, 7 ≤ t → SmmuV3DecodeAddressWidth t = 0) ∧
    (∀ w, w ∉ [32, 36, 40, 42, 44, 48, 52] → SmmuV3EncodeAddressWidth w = 0) := by
  refine ⟨?_, ?_, ?_, ?_⟩
  · intro t ht
    interval_cases t <;> decide
  · intro w hw
    fin_cases hw <;> decide
  · intro t ht
    unfold SmmuV3DecodeAddressWidth
    unfold SmmuAddressSize32Bit SmmuAddressSize36Bit SmmuAddressSize40Bit
      SmmuAddressSize42Bit SmmuAddressSize44Bit SmmuAddressSize48Bit
      SmmuAddressSize52Bit
    rw [if_neg (by omega), if_neg (by omega), if_neg (by omega),
      if_neg (by omega), if_neg (by omega), if_neg (by omega), if_neg (by omega)]
  · intro w hw
    simp only [List.mem_cons, List.mem_singleton, not_or] at hw
    obtain ⟨h32, h36, h40, h42, h44, h48, h52, -⟩ := hw
    unfold SmmuV3EncodeAddressWidth
    rw [if_neg h32, if_neg h36, if_neg h40, if_neg h42, if_neg h44,
      if_neg h48, if_neg h52]

theorem claim_C10_witness :
    SmmuV3EncodeAddressWidth (SmmuV3DecodeAddressWidth 3) = 3 ∧
    SmmuV3DecodeAddressWidth (SmmuV3EncodeAddressWidth 44) = 44 ∧
    SmmuV3DecodeAddressWidth 9 = 0 ∧
    SmmuV3EncodeAddressWidth 33 = 0 :=
  ⟨claim_C10.1 3 (by decide), claim_C10.2.1 44 (by decide),
   claim_C10.2.2.1 9 (by decide), claim_C10.2.2.2 33 (by decide)⟩

theorem sendPollFull_full (env : CmdQEnv) (wrapMask queueMask : Nat)
    (hfull : ∀ t, SMMUV3_IS_QUEUE_FULL
      (queueIndexField (env.prodReads t) &&& queueMask)
      (queueIndexField (env.prodReads t) &&& wrapMask)
      (queueIndexField (env.consReads t) &&& queueMask)
      (queueIndexField (env.consReads t) &&& wrapMask) = true) :
    ∀ count t t', ∃ u v,
      sendPollFull env wrapMask queueMask count t
        (env.prodReads t') (env.consReads t') =
        (0, u, env.prodReads v, env.consReads v) := by
  intro count
  induction count with
  | zero => intro t t'; exact ⟨t, t', rfl⟩
  | succ n ih =>
    intro t t'
    rw [sendPollFull, if_pos (hfull t')]
    exact ih (t + 1) t

/-- Claim C8: if the command queue is full at the initial PROD/CONS
read and at each of the 10 bounded re-polls, SmmuV3SendCommand returns
the timeout error without writing SMMU_CMDQ_PROD or any command-queue
entry. -/
theorem claim_C8 (env : CmdQEnv) (log2size : Nat) (command : Nat × Nat)
    (hfull : ∀ t, SMMUV3_IS_QUEUE_FULL
      (queueIndexField (env.prodReads t) &&& (SMMUV3_COUNT_FROM_LOG2 log2size - 1))
      (queueIndexField (env.prodReads t) &&& SMMUV3_COUNT_FROM_LOG2 log2size)
      (queueIndexField (env.consReads t) &&& (SMMUV3_COUNT_FROM_LOG2 log2size - 1))
      (queueIndexField (env.consReads t) &&& SMMUV3_COUNT_FROM_LOG2 log2size)
      = true) :
    SmmuV3SendCommand env log2size command =
      { status := EfiStatus.timeout, prodWrites := [], cmdWrites := [] } := by
  obtain ⟨u, v, hr⟩ := sendPollFull_full env (SMMUV3_COUNT_FROM_LOG2 log2size)
    (SMMUV3_COUNT_FROM_LOG2 log2size - 1) hfull 10 1 0
  simp only [SmmuV3SendCommand]
  rw [hr]
  rw [if_pos ⟨rfl, hfull v⟩]

/-- A command-queue environment in which PROD always reads 2 and CONS
always reads 0: with a 2-entry queue the slot indices agree and the
wrap bits differ, so the queue stays full through every poll. -/
def c8Env : CmdQEnv := ⟨fun _ => 2, fun _ => 0⟩

theorem claim_C8_witness :
    SmmuV3SendCommand c8Env 1 CMD_SYNC_NO_INTERRUPT =
      { status := EfiStatus.timeout, prodWrites := [], cmdWrites := [] } :=
  claim_C8 c8Env 1 CMD_SYNC_NO_INTERRUPT (fun t => by simp only [c8Env]; decide)

/-! ## Claim C9: the IORT blob layout and checksum -/

theorem listDropAppendRight (l₁ l₂ : List Nat) (n : Nat) (h : l₁.length ≤ n) :
    (l₁ ++ l₂).drop n = l₂.drop (n - l₁.length) := by
  rw [List.drop_append_eq_append_drop, List.drop_eq_nil_of_le h, List.nil_append]

theorem copyMemBytes_mid (off : Nat) (A B C src : List Nat)
    (hA : A.length = off) (hB : B.length = src.length) :
    copyMemBytes (A ++ B ++ C) off src = A ++ src ++ C := by
  unfold copyMemBytes
  subst hA
  rw [List.append_assoc A B C, List.take_left, listDropAppendRight _ _ _ (by omega)]
  have h1 : A.length + src.length - A.length = B.length := by omega
  rw [h1, listDropAppendRight _ _ _ (Nat.le_refl _), Nat.sub_self, List.drop_zero]

/-- The expected shape of the published IORT header: the platform
header bytes with the Length field (bytes 4..7) replaced by the
little-endian total size and the Checksum byte (offset 9) replaced by
the computed checksum value. -/
def iortPatchedHeader (iort : List Nat) (total cs : Nat) : List Nat :=
  iort.take 4 ++ uint32LEBytes total ++ (iort.drop 8).take 1 ++ [cs] ++ iort.drop 10

/-- Claim C9: the published IORT blob is the concatenation, in order,
of the IORT header (its Length field patched to the total byte count
and its Checksum byte patched at offset 9), the ITS node, the SMMUv3
node, and the Root-Complex node; and after AcpiPlatformChecksum runs,
the 8-bit sum of all bytes of the blob is zero. -/
theorem claim_C9 (iort its smmuNode rc : List Nat) (h : 10 ≤ iort.length) :
    (∃ cs, AddIortTable iort its smmuNode rc =
      iortPatchedHeader iort (iort.length + its.length + smmuNode.length + rc.length) cs ++ its ++ smmuNode ++ rc) ∧
    (AddIortTable iort its smmuNode rc).sum % 256 = 0 := by
  have hu4 : (uint32LEBytes (iort.length + its.length + smmuNode.length + rc.length)).length = 4 := rfl
  have t44 : (iort.drop 4).drop 4 = iort.drop 8 := by rw [List.drop_drop]
  have t89 : (iort.drop 8).drop 1 = iort.drop 9 := by rw [List.drop_drop]
  have t910 : (iort.drop 9).drop 1 = iort.drop 10 := by rw [List.drop_drop]
  have split_iort : iort = iort.take 4 ++ ((iort.drop 4).take 4 ++ iort.drop 8) := by
    conv_lhs => rw [← List.take_append_drop 4 iort]
    conv_lhs => rw [← List.take_append_drop 4 (iort.drop 4)]
    conv_lhs => rw [t44]
  have sd8 : iort.drop 8 =
      (iort.drop 8).take 1 ++ ((iort.drop 9).take 1 ++ iort.drop 10) := by
    conv_lhs => rw [← List.take_append_drop 1 (iort.drop 8)]
    conv_lhs => rw [t89]
    conv_lhs => rw [← List.take_append_drop 1 (iort.drop 9)]
    conv_lhs => rw [t910]
  have e0 : AddIortTable iort its smmuNode rc =
      AcpiPlatformChecksum (copyMemBytes (copyMemBytes (copyMemBytes (copyMemBytes
        (copyMemBytes (List.replicate (iort.length + its.length + smmuNode.length + rc.length) 0) 0 iort) 4 (uint32LEBytes (iort.length + its.length + smmuNode.length + rc.length)))
        iort.length its) (iort.length + its.length) smmuNode)
        (iort.length + its.length + smmuNode.length) rc) := rfl
  have hb1 : copyMemBytes (List.replicate (iort.length + its.length + smmuNode.length + rc.length) 0) 0 iort =
      iort ++ List.replicate (iort.length + its.length + smmuNode.length + rc.length - iort.length) 0 := by
    unfold copyMemBytes
    rw [List.take_zero, List.nil_append, Nat.zero_add, List.drop_replicate]
  have hA2 : (iort.take 4).length = 4 := by simp [inf_eq_min]; omega
  have hB2 : ((iort.drop 4).take 4).length = (uint32LEBytes (iort.length + its.length + smmuNode.length + rc.length)).length := by
    rw [hu4]; simp [inf_eq_min]; omega
  have hb2 : copyMemBytes (iort ++ List.replicate (iort.length + its.length + smmuNode.length + rc.length - iort.length) 0) 4 (uint32LEBytes (iort.length + its.length + smmuNode.length + rc.length)) =
      iort.take 4 ++ uint32LEBytes (iort.length + its.length + smmuNode.length + rc.length) ++ iort.drop 8 ++ List.replicate (iort.length + its.length + smmuNode.length + rc.length - iort.length) 0 := by
    have e2a : iort ++ List.replicate (iort.length + its.length + smmuNode.length + rc.length - iort.length) 0 =
        (iort.take 4 ++ ((iort.drop 4).take 4 ++ iort.drop 8)) ++
          List.replicate (iort.length + its.length + smmuNode.length + rc.length - iort.length) 0 :=
      congrArg (· ++ List.replicate (iort.length + its.length + smmuNode.length + rc.length - iort.length) 0) split_iort
    have e2 : iort ++ List.replicate (iort.length + its.length + smmuNode.length + rc.length - iort.length) 0 =
        iort.take 4 ++ (iort.drop 4).take 4 ++
          (iort.drop 8 ++ List.replicate (iort.length + its.length + smmuNode.length + rc.length - iort.length) 0) := by
      rw [e2a]
      simp [List.append_assoc]
    rw [e2, copyMemBytes_mid 4 _ _ _ _ hA2 hB2]
    try simp [List.append_assoc]
  have hA3 : (iort.take 4 ++ uint32LEBytes (iort.length + its.length + smmuNode.length + rc.length) ++ iort.drop 8).length = iort.length := by
    simp [hu4]; omega
  have hb3 : copyMemBytes
      (iort.take 4 ++ uint32LEBytes (iort.length + its.length + smmuNode.length + rc.length) ++ iort.drop 8 ++ List.replicate (iort.length + its.length + smmuNode.length + rc.length - iort.length) 0) iort.length its =
      iort.take 4 ++ uint32LEBytes (iort.length + its.length + smmuNode.length + rc.length) ++ iort.drop 8 ++ its ++ List.replicate (iort.length + its.length + smmuNode.length + rc.length - iort.length - its.length) 0 := by
    have e3 : iort.take 4 ++ uint32LEBytes (iort.length + its.length + smmuNode.length + rc.length) ++ iort.drop 8 ++ List.replicate (iort.length + its.length + smmuNode.length + rc.length - iort.length) 0 =
        (iort.take 4 ++ uint32LEBytes (iort.length + its.length + smmuNode.length + rc.length) ++ iort.drop 8) ++ List.replicate its.length 0 ++
          List.replicate (iort.length + its.length + smmuNode.length + rc.length - iort.length - its.length) 0 := by
      conv_lhs => rw [show iort.length + its.length + smmuNode.length + rc.length - iort.length =
        its.length + (iort.length + its.length + smmuNode.length + rc.length - iort.length - its.length) from by omega,
        List.replicate_add]
      simp [List.append_assoc]
    rw [e3, copyMemBytes_mid iort.length _ _ _ _ hA3 (by simp)]
    try simp [List.append_assoc]
  have hA4 : (iort.take 4 ++ uint32LEBytes (iort.length + its.length + smmuNode.length + rc.length) ++ iort.drop 8 ++ its).length = iort.length + its.length := by
    simp [hu4, inf_eq_min]; omega
  have hb4 : copyMemBytes
      (iort.take 4 ++ uint32LEBytes (iort.length + its.length + smmuNode.length + rc.length) ++ iort.drop 8 ++ its ++ List.replicate (iort.length + its.length + smmuNode.length + rc.length - iort.length - its.length) 0)
      (iort.length + its.length) smmuNode =
      iort.take 4 ++ uint32LEBytes (iort.length + its.length + smmuNode.length + rc.length) ++ iort.drop 8 ++ its ++ smmuNode ++
        List.replicate (iort.length + its.length + smmuNode.length + rc.length - iort.length - its.length - smmuNode.length) 0 := by
    have e4 : iort.take 4 ++ uint32LEBytes (iort.length + its.length + smmuNode.length + rc.length) ++ iort.drop 8 ++ its ++ List.replicate (iort.length + its.length + smmuNode.length + rc.length - iort.length - its.length) 0 =
        (iort.take 4 ++ uint32LEBytes (iort.length + its.length + smmuNode.length + rc.length) ++ iort.drop 8 ++ its) ++ List.replicate smmuNode.length 0 ++
          List.replicate (iort.length + its.length + smmuNode.length + rc.length - iort.length - its.length - smmuNode.length) 0 := by
      conv_lhs => rw [show iort.length + its.length + smmuNode.length + rc.length - iort.length - its.length =
        smmuNode.length + (iort.length + its.length + smmuNode.length + rc.length - iort.length - its.length - smmuNode.length) from
        by omega, List.replicate_add]
      simp [List.append_assoc]
    rw [e4, copyMemBytes_mid (iort.length + its.length) _ _ _ _ hA4 (by simp)]
    try simp [List.append_assoc]
  have hA5 : (iort.take 4 ++ uint32LEBytes (iort.length + its.length + smmuNode.length + rc.length) ++ iort.drop 8 ++ its ++ smmuNode).length =
      iort.length + its.length + smmuNode.length := by
    simp [hu4, inf_eq_min]; omega
  have hB5 : (List.replicate (iort.length + its.length + smmuNode.length + rc.length - iort.length - its.length - smmuNode.length)
      (0 : Nat)).length = rc.length := by
    simp [inf_eq_min]; omega
  have hb5 : copyMemBytes
      (iort.take 4 ++ uint32LEBytes (iort.length + its.length + smmuNode.length + rc.length) ++ iort.drop 8 ++ its ++ smmuNode ++
        List.replicate (iort.length + its.length + smmuNode.length + rc.length - iort.length - its.length - smmuNode.length) 0)
      (iort.length + its.length + smmuNode.length) rc =
      iort.take 4 ++ uint32LEBytes (iort.length + its.length + smmuNode.length + rc.length) ++ iort.drop 8 ++ its ++ smmuNode ++ rc := by
    have e5 : iort.take 4 ++ uint32LEBytes (iort.length + its.length + smmuNode.length + rc.length) ++ iort.drop 8 ++ its ++ smmuNode ++
        List.replicate (iort.length + its.length + smmuNode.length + rc.length - iort.length - its.length - smmuNode.length) 0 =
        (iort.take 4 ++ uint32LEBytes (iort.length + its.length + smmuNode.length + rc.length) ++ iort.drop 8 ++ its ++ smmuNode) ++
          List.replicate (iort.length + its.length + smmuNode.length + rc.length - iort.length - its.length - smmuNode.length) 0 ++
          ([] : List Nat) := by
      simp [List.append_assoc]
    rw [e5, copyMemBytes_mid (iort.length + its.length + smmuNode.length) _ _ _ _
      hA5 hB5]
    try simp [List.append_assoc]
  have hA6 : (iort.take 4 ++ uint32LEBytes (iort.length + its.length + smmuNode.length + rc.length) ++ (iort.drop 8).take 1).length = 9 := by
    simp [hu4, inf_eq_min]; omega
  have hB6 : ((iort.drop 9).take 1).length = ([0] : List Nat).length := by
    simp [inf_eq_min]; omega
  have hb6 : AcpiPlatformChecksum (iort.take 4 ++ uint32LEBytes (iort.length + its.length + smmuNode.length + rc.length) ++ iort.drop 8 ++ its ++ smmuNode ++ rc) =
      iortPatchedHeader iort (iort.length + its.length + smmuNode.length + rc.length) (calculateCheckSum8 (iort.take 4 ++ uint32LEBytes (iort.length + its.length + smmuNode.length + rc.length) ++ (iort.drop 8).take 1 ++ [0] ++ iort.drop 10 ++ its ++ smmuNode ++ rc)) ++ its ++ smmuNode ++ rc := by
    have e6 : iort.take 4 ++ uint32LEBytes (iort.length + its.length + smmuNode.length + rc.length) ++ iort.drop 8 ++ its ++ smmuNode ++ rc =
        (iort.take 4 ++ uint32LEBytes (iort.length + its.length + smmuNode.length + rc.length) ++ (iort.drop 8).take 1) ++ (iort.drop 9).take 1 ++
          (iort.drop 10 ++ its ++ smmuNode ++ rc) := by
      conv_lhs => rw [sd8]
      simp [List.append_assoc]
    simp only [AcpiPlatformChecksum, ACPI_CHECKSUM_OFFSET]
    rw [e6, copyMemBytes_mid 9 _ _ _ _ hA6 hB6,
      copyMemBytes_mid 9 (iort.take 4 ++ uint32LEBytes (iort.length + its.length + smmuNode.length + rc.length) ++ (iort.drop 8).take 1) [0] (iort.drop 10 ++ its ++ smmuNode ++ rc)
        [calculateCheckSum8 ((iort.take 4 ++ uint32LEBytes (iort.length + its.length + smmuNode.length + rc.length) ++ (iort.drop 8).take 1) ++ [0] ++ (iort.drop 10 ++ its ++ smmuNode ++ rc))] hA6 rfl]
    simp [iortPatchedHeader, List.append_assoc]
  have hblob : AddIortTable iort its smmuNode rc =
      iortPatchedHeader iort (iort.length + its.length + smmuNode.length + rc.length) (calculateCheckSum8 (iort.take 4 ++ uint32LEBytes (iort.length + its.length + smmuNode.length + rc.length) ++ (iort.drop 8).take 1 ++ [0] ++ iort.drop 10 ++ its ++ smmuNode ++ rc)) ++ its ++ smmuNode ++ rc := by
    rw [e0, hb1, hb2, hb3, hb4, hb5, hb6]
  refine ⟨⟨calculateCheckSum8 (iort.take 4 ++ uint32LEBytes (iort.length + its.length + smmuNode.length + rc.length) ++ (iort.drop 8).take 1 ++ [0] ++ iort.drop 10 ++ its ++ smmuNode ++ rc), hblob⟩, ?_⟩
  rw [hblob]
  simp [iortPatchedHeader, calculateCheckSum8, List.sum_append]
  omega

/-- A 12-byte stand-in IORT header blob for the witness. -/
def iortW : List Nat := [65, 66, 67, 68, 90, 0, 0, 0, 1, 7, 3, 4]

theorem claim_C9_witness :
    (∃ cs, AddIortTable iortW [20] [30, 31] [40] =
      iortPatchedHeader iortW
        (iortW.length + [20].length + [30, 31].length + [40].length) cs
        ++ [20] ++ [30, 31] ++ [40]) ∧
    (AddIortTable iortW [20] [30, 31] [40]).sum % 256 = 0 :=
  claim_C9 iortW [20] [30, 31] [40] (by decide)
